import Mathlib

/-! Redis Pub/Sub message client: subscription registry, topic translation, publish and
receive loop.

A shallow embedding of `pkg/internal/redis/client.go`, `pkg/internal/redis/goredis.go` and the
error types of `pkg/internal/errors.go` and `pkg/internal/redis/errors.go`.

Modelling conventions:

* Go strings are Lean `String`s.  The only patterns handed to `strings.Replace`,
  `strings.HasSuffix`, `strings.TrimSuffix` and `strings.Contains` are ASCII, so working on
  characters instead of bytes gives the same result on every valid UTF-8 string.
* The map `existingTopics map[string]bool` is a function `String → Option Bool`
  (`none` = no entry).  The mutex is not modelled: every critical section is one step.
* The `RedisClient` interface value is a log of the calls made on it together with the
  outcome the implementation gives for each call (a function of the log so far), so a theorem
  quantified over all `RedisClient`s covers every backend behaviour.
* A goroutine started by `Subscribe` is a `ReceiveLoop` record; a channel send is recorded
  in the order it happens.
* `System.Subscribe` runs every goroutine up to its `wg.Done()` before it returns;
  `SubscribeRun` is the same code as interleaved atomic steps of the caller and the
  goroutines, with the `sync.WaitGroup` as a counter.
-/

namespace Messaging

/-! ## Go standard library pieces used by the client -/

/-- Scan for `strings.Replace(s, old, new, -1)` with a non-empty `old`: the first argument
counts the characters of the current match still to be skipped. -/
def replaceFrom (old new : List Char) : Nat → List Char → List Char
  | _, [] => []
  | skip + 1, _ :: cs => replaceFrom old new skip cs
  | 0, c :: cs =>
    if old.isPrefixOf (c :: cs) then new ++ replaceFrom old new (old.length - 1) cs
    else c :: replaceFrom old new 0 cs

/-- Go `strings.Replace(s, old, new, -1)`: every non-overlapping occurrence of `old`, found
left to right, is replaced by `new`; an empty `old` matches before every character and at
the end. -/
def stringsReplaceAll (s old new : String) : String :=
  if old.data = [] then ⟨new.data ++ s.data.flatMap (fun c => c :: new.data)⟩
  else ⟨replaceFrom old.data new.data 0 s.data⟩

/-- Go `strings.HasSuffix`. -/
def stringsHasSuffix (s suffix : String) : Bool :=
  suffix.data.isSuffixOf s.data

/-- Go `strings.TrimSuffix`. -/
def stringsTrimSuffix (s suffix : String) : String :=
  if stringsHasSuffix s suffix then ⟨s.data.take (s.data.length - suffix.data.length)⟩ else s

/-- Whether `sub` occurs in `s` starting at some position. -/
def containsChars (sub : List Char) : List Char → Bool
  | [] => sub.isEmpty
  | c :: cs => sub.isPrefixOf (c :: cs) || containsChars sub cs

/-- Go `strings.Contains`. -/
def stringsContains (s substr : String) : Bool :=
  containsChars substr.data s.data

/-- Go `strings.Join`. -/
def stringsJoin (elems : List String) (sep : String) : String :=
  sep.intercalate elems

/-! ## Constants of `client.go` -/

def StandardTopicSeparator : String := "/"
def RedisTopicSeparator : String := "."
def StandardWildcard : String := "#"
def SingleLevelWildcard : String := "+"
def RedisWildcard : String := "*"

/-! ## Errors -/

/-- The error values the client creates or passes on.  `errorString` is the value built by
`fmt.Errorf` without a wrapped error (and by `errors.New`); errors coming from the transport
are values of this type too. -/
inductive GoError where
  | MissingConfigurationErr (missingConfiguration description : String)
  | InvalidTopicErr (topic description : String)
  | DisconnectErr (disconnectErrors : List String)
  | errorString (text : String)
  deriving DecidableEq, Repr

/-- The `Error()` method of each error type. -/
def GoError.Error : GoError → String
  | .MissingConfigurationErr missingConfiguration description =>
    "Missing configuration \x27" ++ missingConfiguration ++ "\x27 : " ++ description
  | .InvalidTopicErr topic description =>
    "Invalid topic \x27" ++ topic ++ "\x27: " ++ description
  | .DisconnectErr disconnectErrors =>
    "Unable to disconnect client(s): " ++ stringsJoin disconnectErrors ","
  | .errorString text => text

def NewMissingConfigurationErr (missingConfiguration message : String) : GoError :=
  .MissingConfigurationErr missingConfiguration message

def NewInvalidTopicErr (topic description : String) : GoError :=
  .InvalidTopicErr topic description

def NewDisconnectErr (disconnectErrors : List String) : GoError :=
  .DisconnectErr disconnectErrors

/-- Go `reflect.DeepEqual` on two error values: same dynamic type and deeply equal
contents. -/
def reflectDeepEqual (a b : GoError) : Bool :=
  decide (a = b)

/-! ## Data model -/

/-- Modelled from the spec: the message envelope value object of `pkg/types`, whose
declaration is not among the sources; field names are the ones the sources and tests use. -/
structure MessageEnvelope where
  ApiVersion : String := ""
  RequestID : String := ""
  CorrelationID : String := ""
  ContentType : String := ""
  ErrorCode : Int := 0
  Payload : List Nat := []
  ReceivedTopic : String := ""
  QueryParams : List (String × String) := []
  deriving DecidableEq, Repr

/-- A `types.TopicChannel`: a topic and the caller-owned channel, named by a number. -/
structure TopicChannel where
  Topic : String
  Messages : Nat
  deriving DecidableEq, Repr

/-- The map `existingTopics map[string]bool`. -/
abbrev TopicMap := String → Option Bool

/-- The value of `make(map[string]bool)`. -/
def TopicMap.empty : TopicMap := fun _ => none

/-- Go `m[k]`: the zero value `false` when there is no entry. -/
def TopicMap.lookup (m : TopicMap) (k : String) : Bool := (m k).getD false

/-- Go `_, exists := m[k]`. -/
def TopicMap.contains (m : TopicMap) (k : String) : Bool := (m k).isSome

/-- Go `m[k] = v`. -/
def TopicMap.store (m : TopicMap) (k : String) (v : Bool) : TopicMap :=
  fun k' => if k' = k then some v else m k'

/-- Go `delete(m, k)`. -/
def TopicMap.delete (m : TopicMap) (k : String) : TopicMap :=
  fun k' => if k' = k then none else m k'

/-! ## The `RedisClient` interface -/

/-- One call on the `RedisClient` interface. -/
inductive RedisCall where
  | Subscribe (topic : String)
  | Unsubscribe (topic : String)
  | Send (topic : String) (message : MessageEnvelope)
  | Receive (topic : String)
  | Close
  deriving DecidableEq, Repr

/-- A `RedisClient` implementation as the client sees it: the calls made so far, oldest
first, and the error (if any) with which the implementation answers the last call of a
log. -/
structure RedisClient where
  calls : List RedisCall
  outcome : List RedisCall → Option GoError

def RedisClient.Subscribe (r : RedisClient) (topic : String) : RedisClient :=
  { r with calls := r.calls ++ [RedisCall.Subscribe topic] }

def RedisClient.Unsubscribe (r : RedisClient) (topic : String) : RedisClient :=
  { r with calls := r.calls ++ [RedisCall.Unsubscribe topic] }

def RedisClient.Send (r : RedisClient) (topic : String) (message : MessageEnvelope) :
    Option GoError × RedisClient :=
  let calls := r.calls ++ [RedisCall.Send topic message]
  (r.outcome calls, { r with calls := calls })

/-- The blocking `Receive`; what it returns is supplied by the environment. -/
def RedisClient.Receive (r : RedisClient) (topic : String) : RedisClient :=
  { r with calls := r.calls ++ [RedisCall.Receive topic] }

def RedisClient.Close (r : RedisClient) : Option GoError × RedisClient :=
  let calls := r.calls ++ [RedisCall.Close]
  (r.outcome calls, { r with calls := calls })

/-! ## Topic translation -/

def convertToRedisTopicScheme (topic : String) : String :=
  let topic := stringsReplaceAll topic StandardTopicSeparator RedisTopicSeparator
  let topic := stringsReplaceAll topic StandardWildcard RedisWildcard
  let topic := stringsReplaceAll topic SingleLevelWildcard RedisWildcard
  topic

def convertFromRedisTopicScheme (topic : String) : String :=
  let topic := stringsReplaceAll topic (RedisWildcard ++ RedisTopicSeparator)
    (SingleLevelWildcard ++ StandardTopicSeparator)
  let topic := stringsReplaceAll topic RedisTopicSeparator StandardTopicSeparator
  let topic := stringsReplaceAll topic RedisWildcard StandardWildcard
  topic

/-! ## The client -/

/-- The `Client` struct: `redisClient` is `none` for the nil interface value; the map is
shared by every copy of the struct. -/
structure Client where
  redisClient : Option RedisClient
  existingTopics : TopicMap

/-- The value of
`fmt.Errorf("subscription for '%s' topic already exists, must be unique", topic.Topic)`. -/
def duplicateSubscriptionErr (topic : String) : GoError :=
  .errorString ("subscription for \x27" ++ topic ++ "\x27 topic already exists, must be unique")

/-- The loop of `validateTopics` over the remaining topics. -/
def validateTopicsLoop (existingTopics : TopicMap) :
    List TopicChannel → Option GoError × TopicMap
  | [] => (none, existingTopics)
  | topic :: rest =>
    if existingTopics.contains topic.Topic then
      (some (duplicateSubscriptionErr topic.Topic), existingTopics)
    else validateTopicsLoop (existingTopics.store topic.Topic true) rest

def Client.validateTopics (c : Client) (topics : List TopicChannel) : Option GoError × Client :=
  let (err, existingTopics) := validateTopicsLoop c.existingTopics topics
  (err, { c with existingTopics := existingTopics })

def Client.Publish (c : Client) (message : MessageEnvelope) (topic : String) :
    Option GoError × Client :=
  match c.redisClient with
  | none =>
    (some (NewMissingConfigurationErr "Broker" "Unable to create a connection for publishing"), c)
  | some redisClient =>
    if topic = "" then
      (some (NewInvalidTopicErr "" "Unable to publish to the invalid topic"), c)
    else
      let topic := convertToRedisTopicScheme topic
      match redisClient.Send topic message with
      | (some err, redisClient) =>
        if stringsContains err.Error "EOF" then
          let (err, redisClient) := redisClient.Send topic message
          (err, { c with redisClient := some redisClient })
        else (some err, { c with redisClient := some redisClient })
      | (none, redisClient) => (none, { c with redisClient := some redisClient })

/-- The test `previousErr != nil && reflect.DeepEqual(err, previousErr)`. -/
def sameAsPrevious (err : GoError) : Option GoError → Bool
  | none => false
  | some previousErr => reflectDeepEqual err previousErr

/-- The state of one goroutine started by `Subscribe`: its captured variables, whether it
is still running, and what it has sent so far on the message channel and on the error
channel. -/
structure ReceiveLoop where
  topic : TopicChannel
  previousErr : Option GoError
  running : Bool
  messages : List MessageEnvelope
  errors : List GoError

/-- The local `topicName`, assigned once when the goroutine starts. -/
def ReceiveLoop.topicName (loop : ReceiveLoop) : String :=
  convertToRedisTopicScheme loop.topic.Topic

/-- The goroutine body up to `wg.Done()`. -/
def startReceiveLoop (redisClient : RedisClient) (topic : TopicChannel) :
    RedisClient × ReceiveLoop :=
  let loop : ReceiveLoop :=
    { topic := topic, previousErr := none, running := true, messages := [], errors := [] }
  (redisClient.Subscribe loop.topicName, loop)

/-- One iteration of the `for` loop of the goroutine, for the result `Receive` gave. -/
def receiveIteration (redisClient : RedisClient) (existingTopics : TopicMap)
    (loop : ReceiveLoop) (result : Except GoError MessageEnvelope) :
    RedisClient × TopicMap × ReceiveLoop :=
  let redisClient := redisClient.Receive loop.topicName
  let subscribed := existingTopics.lookup loop.topic.Topic
  if !subscribed then
    (redisClient.Unsubscribe loop.topicName, existingTopics.delete loop.topic.Topic,
      { loop with running := false })
  else
    match result with
    | .error err =>
      if sameAsPrevious err loop.previousErr then
        (redisClient, existingTopics, loop)
      else
        (redisClient, existingTopics,
          { loop with errors := loop.errors ++ [err], previousErr := some err })
    | .ok message =>
      let message := { message with
        ReceivedTopic := convertFromRedisTopicScheme message.ReceivedTopic }
      (redisClient, existingTopics,
        { loop with previousErr := none, messages := loop.messages ++ [message] })

/-- The goroutine run over the successive results of `Receive`, until it returns. -/
def runReceiveLoop (redisClient : RedisClient) (existingTopics : TopicMap)
    (loop : ReceiveLoop) : List (Except GoError MessageEnvelope) →
    RedisClient × TopicMap × ReceiveLoop
  | [] => (redisClient, existingTopics, loop)
  | result :: rest =>
    if loop.running then
      let (redisClient, existingTopics, loop) :=
        receiveIteration redisClient existingTopics loop result
      runReceiveLoop redisClient existingTopics loop rest
    else (redisClient, existingTopics, loop)

/-- The client together with the goroutines started so far. -/
structure System where
  client : Client
  loops : List ReceiveLoop

/-- The `for i := range topics` of `Subscribe`, each goroutine run up to its `wg.Done()`. -/
def startReceiveLoops (redisClient : RedisClient) :
    List TopicChannel → RedisClient × List ReceiveLoop
  | [] => (redisClient, [])
  | topic :: rest =>
    let (redisClient, loop) := startReceiveLoop redisClient topic
    let (redisClient, loops) := startReceiveLoops redisClient rest
    (redisClient, loop :: loops)

def System.Subscribe (s : System) (topics : List TopicChannel) : Option GoError × System :=
  match s.client.redisClient with
  | none =>
    (some (NewMissingConfigurationErr "Broker" "Unable to create a connection for subscribing"), s)
  | some redisClient =>
    match s.client.validateTopics topics with
    | (some err, client) => (some err, { s with client := client })
    | (none, client) =>
      let (redisClient, loops) := startReceiveLoops redisClient topics
      (none, { client := { client with redisClient := some redisClient },
               loops := s.loops ++ loops })

/-- The first loop of `Unsubscribe`. -/
def disengageTopics (existingTopics : TopicMap) : List String → TopicMap
  | [] => existingTopics
  | topic :: rest => disengageTopics (existingTopics.store topic false) rest

/-- The second loop of `Unsubscribe`; the result of each `Publish` is dropped. -/
def kickTopics (c : Client) : List String → Client
  | [] => c
  | topic :: rest => kickTopics (c.Publish {} topic).2 rest

def Client.Unsubscribe (c : Client) (topics : List String) : Option GoError × Client :=
  let c := { c with existingTopics := disengageTopics c.existingTopics topics }
  let c := kickTopics c topics
  (none, c)

def Client.Disconnect (c : Client) : Option GoError × Client :=
  let (disconnectErrors, c) : List String × Client :=
    match c.redisClient with
    | none => ([], c)
    | some redisClient =>
      match redisClient.Close with
      | (some err, redisClient) =>
        ([] ++ ["Unable to disconnect publish client: " ++ err.Error],
          { c with redisClient := some redisClient })
      | (none, redisClient) => ([], { c with redisClient := some redisClient })
  if disconnectErrors.length > 0 then (some (NewDisconnectErr disconnectErrors), c)
  else (none, c)

/-! ## The go-redis wrapper -/

/-- A `*goRedis.PubSub` handle, known by the patterns it was created with. -/
structure PubSub where
  patterns : List String
  deriving DecidableEq, Repr

/-- The `goRedisWrapper` struct: the map of subscriptions and, for the wrapped go-redis
client, the `PSubscribe` calls made on it so far (each with its patterns), oldest first. -/
structure goRedisWrapper where
  subscriptions : String → Option PubSub
  psubscribeCalls : List (List String)

def goRedisWrapper.getSubscription (g : goRedisWrapper) (topic : String) :
    PubSub × goRedisWrapper :=
  match g.subscriptions topic with
  | some subscription => (subscription, g)
  | none =>
    let patterns :=
      if stringsHasSuffix topic (RedisTopicSeparator ++ RedisWildcard) then
        [topic, stringsTrimSuffix topic (RedisTopicSeparator ++ RedisWildcard)]
      else [topic]
    let subscription : PubSub := { patterns := patterns }
    (subscription,
      { subscriptions := fun k => if k = topic then some subscription else g.subscriptions k,
        psubscribeCalls := g.psubscribeCalls ++ [patterns] })

def goRedisWrapper.Subscribe (g : goRedisWrapper) (topic : String) : goRedisWrapper :=
  (g.getSubscription topic).2

/-! ## Specification-side notions for the topic schemes -/

/-- The per-character translation to the Redis scheme: separator to separator, both
wildcards to the Redis wildcard. -/
def toRedisChar (c : Char) : Char :=
  if c = '/' then '.' else if c = '#' then '*' else if c = '+' then '*' else c

/-- The position-by-position translation from the Redis scheme: a wildcard immediately
followed by the separator becomes the single-level wildcard, any other wildcard the
multi-level one, a separator the standard separator. -/
def fromRedisChars : List Char → List Char
  | [] => []
  | c :: rest =>
    (if c = '*' then (if rest.head? = some '.' then '+' else '#')
      else if c = '.' then '/' else c) :: fromRedisChars rest

/-- The levels of a topic of the standard scheme: the pieces between the separators. -/
def topicLevels : List Char → List (List Char)
  | [] => [[]]
  | c :: cs =>
    if c = '/' then [] :: topicLevels cs
    else
      match topicLevels cs with
      | [] => [[c]]
      | level :: levels => (c :: level) :: levels

/-- A topic of the standard scheme: no character of the Redis scheme, the single-level
wildcard only as a whole level, the multi-level wildcard only as a whole level and only as
the last one. -/
def isStandardTopic (topic : String) : Bool :=
  topic.data.all (fun c => c ≠ '.' && c ≠ '*') &&
  (topicLevels topic.data).all (fun level => !level.contains '+' || level == ['+']) &&
  (topicLevels topic.data).all (fun level => !level.contains '#' || level == ['#']) &&
  (topicLevels topic.data).dropLast.all (fun level => !level.contains '#')

/-- The condition of `isStandardTopic` on the levels, as a proposition. -/
def StandardLevels (levels : List (List Char)) : Prop :=
  (∀ level ∈ levels, ('+' ∈ level → level = ['+']) ∧ ('#' ∈ level → level = ['#'])) ∧
    ∀ level ∈ levels.dropLast, '#' ∉ level

/-- The error of a receive result, if it failed. -/
def resultError : Except GoError MessageEnvelope → Option GoError
  | .error err => some err
  | .ok _ => none

/-- The errors a receive loop has to forward for a sequence of receive results, in the
words of the specification: the failed results whose error is not equal to the error of the
immediately preceding result.  `previous` is the error of the result before the sequence
(`none` when there is no such result or it succeeded). -/
def forwardedErrors (previous : Option GoError)
    (results : List (Except GoError MessageEnvelope)) : List GoError :=
  (List.zip (previous :: results.map resultError) (results.map resultError)).filterMap
    (fun pair =>
      match pair.2 with
      | some err => if pair.1 = some err then none else some err
      | none => none)

/-- The envelope a receive loop has to deliver for a received envelope, in the words of the
specification: the received-topic field is the translation of the backend channel name to
the standard scheme, every other field is the received one. -/
def deliveredEnvelope (received : MessageEnvelope) : MessageEnvelope :=
  { ApiVersion := received.ApiVersion
    RequestID := received.RequestID
    CorrelationID := received.CorrelationID
    ContentType := received.ContentType
    ErrorCode := received.ErrorCode
    Payload := received.Payload
    ReceivedTopic := convertFromRedisTopicScheme received.ReceivedTopic
    QueryParams := received.QueryParams }

/-- The successfully received envelopes of a sequence of receive results, in order. -/
def receivedEnvelopes : List (Except GoError MessageEnvelope) → List MessageEnvelope
  | [] => []
  | .ok message :: rest => message :: receivedEnvelopes rest
  | .error _ :: rest => receivedEnvelopes rest

/-- The characters of a topic that translates to the Redis scheme and back unchanged: no
character of the Redis scheme, every `+` right before a separator, no `#` right before a
separator. -/
def roundTripSafe : List Char → Bool
  | [] => true
  | c :: rest =>
    (if c = '+' then rest.head? = some '/'
      else if c = '#' then rest.head? ≠ some '/'
      else c ≠ '.' && c ≠ '*') && roundTripSafe rest

/-! ## Subscribe and its goroutines as interleaved steps -/

/-- Where a goroutine started by `Subscribe` stands: before its call of
`c.redisClient.Subscribe(topicName)`, between that call and `wg.Done()`, or in the `for`
loop. -/
inductive GoroutinePc where
  | beforeSubscribe
  | beforeDone
  | receiving
  deriving DecidableEq, Repr

/-- Where the caller of `Subscribe` stands after the validation: in
`for i := range topics` with the topics still to be handled, blocked in `wg.Wait()`, or
past `return nil`. -/
inductive SubscribePc where
  | spawning (remaining : List TopicChannel)
  | waiting
  | returned
  deriving DecidableEq, Repr

/-- A run of `Subscribe` in progress: the caller, the counter of the `sync.WaitGroup`, the
shared backend and registry, and the goroutines started so far. -/
structure SubscribeRun where
  caller : SubscribePc
  wg : Int
  redisClient : RedisClient
  existingTopics : TopicMap
  goroutines : List (GoroutinePc × ReceiveLoop)

/-- Whose turn it is: the caller of `Subscribe`, or the goroutine with the given index; for
a goroutine in its `for` loop the turn is one iteration, with the result of `Receive`. -/
inductive Turn where
  | caller
  | goroutine (index : Nat) (received : Except GoError MessageEnvelope)

/-- `Subscribe` up to the declaration of the `WaitGroup`: the nil check and
`validateTopics`. -/
def SubscribeRun.start (c : Client) (topics : List TopicChannel) : Except GoError SubscribeRun :=
  match c.redisClient with
  | none =>
    .error (NewMissingConfigurationErr "Broker" "Unable to create a connection for subscribing")
  | some redisClient =>
    match c.validateTopics topics with
    | (some err, _) => .error err
    | (none, c) =>
      .ok { caller := .spawning topics, wg := 0, redisClient := redisClient,
            existingTopics := c.existingTopics, goroutines := [] }

/-- One atomic step.  The caller executes `wg.Add(1)` and the `go` statement for the next
topic, reaches `wg.Wait()` after the last one, and passes `wg.Wait()` only when the counter
is zero.  A goroutine calls backend `Subscribe`, then `wg.Done()`, then iterates its loop.
The result is `none` when the turn cannot be taken (blocked, finished, no such
goroutine). -/
def SubscribeRun.step (s : SubscribeRun) : Turn → Option SubscribeRun
  | .caller =>
    match s.caller with
    | .spawning (topic :: rest) =>
      some { s with
        caller := .spawning rest
        wg := s.wg + 1
        goroutines := s.goroutines ++
          [(.beforeSubscribe, { topic := topic, previousErr := none, running := true,
                                messages := [], errors := [] })] }
    | .spawning [] => some { s with caller := .waiting }
    | .waiting => if s.wg = 0 then some { s with caller := .returned } else none
    | .returned => none
  | .goroutine index received =>
    match s.goroutines[index]? with
    | none => none
    | some (.beforeSubscribe, loop) =>
      some { s with
        redisClient := s.redisClient.Subscribe loop.topicName
        goroutines := s.goroutines.set index (.beforeDone, loop) }
    | some (.beforeDone, loop) =>
      some { s with
        wg := s.wg - 1
        goroutines := s.goroutines.set index (.receiving, loop) }
    | some (.receiving, loop) =>
      if loop.running then
        let next := receiveIteration s.redisClient s.existingTopics loop received
        some { s with
          redisClient := next.1
          existingTopics := next.2.1
          goroutines := s.goroutines.set index (.receiving, next.2.2) }
      else none

/-- The run under a schedule; a turn that cannot be taken is skipped. -/
def SubscribeRun.run (s : SubscribeRun) : List Turn → SubscribeRun
  | [] => s
  | turn :: rest =>
    match s.step turn with
    | some next => next.run rest
    | none => s.run rest

/-- The topics the caller has still to start a goroutine for. -/
def SubscribePc.remaining : SubscribePc → List TopicChannel
  | .spawning remaining => remaining
  | .waiting => []
  | .returned => []

/-- Whether a goroutine has not executed its `wg.Done()` yet. -/
def notDone (g : GoroutinePc × ReceiveLoop) : Bool :=
  decide (g.1 ≠ GoroutinePc.receiving)

/-- What holds in every state of a run of `Subscribe` for the request `topics`: the counter
of the `WaitGroup` is the number of goroutines that have not called `wg.Done()`; a
goroutine past its first step has its backend `Subscribe` call in the log; the goroutines
started and the topics remaining are the request; once the caller has returned, every
goroutine is in its loop. -/
structure SubscribeRun.Inv (topics : List TopicChannel) (s : SubscribeRun) : Prop where
  counter : s.wg = ((s.goroutines.countP notDone : Nat) : Int)
  subscribed : ∀ g ∈ s.goroutines, g.1 ≠ GoroutinePc.beforeSubscribe →
    RedisCall.Subscribe (convertToRedisTopicScheme g.2.topic.Topic) ∈ s.redisClient.calls
  started : s.goroutines.map (fun g => g.2.topic) ++ s.caller.remaining = topics
  released : s.caller = SubscribePc.returned →
    ∀ g ∈ s.goroutines, g.1 = GoroutinePc.receiving

/-! ## Facts about the registry map -/

theorem TopicMap.store_same (m : TopicMap) (k : String) (v : Bool) : m.store k v k = some v := by
  simp [TopicMap.store]

theorem TopicMap.store_other (m : TopicMap) (k k' : String) (v : Bool) (h : k' ≠ k) :
    m.store k v k' = m k' := by
  simp [TopicMap.store, h]

theorem TopicMap.store_isSome (m : TopicMap) (k k' : String) (v : Bool)
    (h : (m k').isSome) : (m.store k v k').isSome := by
  unfold TopicMap.store
  split <;> simp [h]

theorem TopicMap.delete_same (m : TopicMap) (k : String) : m.delete k k = none := by
  simp [TopicMap.delete]

theorem TopicMap.delete_other (m : TopicMap) (k k' : String) (h : k' ≠ k) :
    m.delete k k' = m k' := by
  simp [TopicMap.delete, h]

/-! ## Registration (`validateTopics`) -/

theorem validateTopicsLoop_conflict_of_entry (topics : List TopicChannel) :
    ∀ m : TopicMap, (∃ t ∈ topics, (m t.Topic).isSome) →
      (validateTopicsLoop m topics).1.isSome := by
  induction topics with
  | nil => intro m h; simp at h
  | cons u rest ih =>
    intro m h
    unfold validateTopicsLoop
    by_cases hu : m.contains u.Topic
    · simp [hu]
    · simp only [hu, Bool.false_eq_true, if_false]
      apply ih
      obtain ⟨t, ht, hsome⟩ := h
      rcases List.mem_cons.mp ht with rfl | hrest
      · exact absurd hsome (by simpa [TopicMap.contains] using hu)
      · exact ⟨t, hrest, TopicMap.store_isSome _ _ _ _ hsome⟩

theorem validateTopicsLoop_entry_of_conflict (topics : List TopicChannel) :
    ∀ m : TopicMap, (topics.map (·.Topic)).Nodup →
      (validateTopicsLoop m topics).1.isSome → ∃ t ∈ topics, (m t.Topic).isSome := by
  induction topics with
  | nil => intro m _ h; simp [validateTopicsLoop] at h
  | cons u rest ih =>
    intro m hnodup h
    unfold validateTopicsLoop at h
    by_cases hu : m.contains u.Topic
    · exact ⟨u, List.mem_cons_self _ _, by simpa [TopicMap.contains] using hu⟩
    · simp only [hu, Bool.false_eq_true, if_false] at h
      rw [List.map_cons, List.nodup_cons] at hnodup
      obtain ⟨t, ht, hsome⟩ := ih _ hnodup.2 h
      have hne : t.Topic ≠ u.Topic := by
        intro heq
        exact hnodup.1 (heq ▸ List.mem_map_of_mem (·.Topic) ht)
      rw [TopicMap.store_other _ _ _ _ hne] at hsome
      exact ⟨t, List.mem_cons_of_mem _ ht, hsome⟩

theorem validateTopicsLoop_names_first (pre : List TopicChannel) (t : TopicChannel)
    (post : List TopicChannel) :
    ∀ m : TopicMap, ((pre ++ t :: post).map (·.Topic)).Nodup →
      (∀ u ∈ pre, m u.Topic = none) → (m t.Topic).isSome →
      (validateTopicsLoop m (pre ++ t :: post)).1 = some (duplicateSubscriptionErr t.Topic) := by
  induction pre with
  | nil =>
    intro m _ _ ht
    have : m.contains t.Topic = true := by simpa [TopicMap.contains] using ht
    simp [validateTopicsLoop, this]
  | cons u pre ih =>
    intro m hnodup hpre ht
    have hu : m.contains u.Topic = false := by
      simp [TopicMap.contains, hpre u (List.mem_cons_self _ _)]
    rw [List.cons_append, List.map_cons, List.nodup_cons] at hnodup
    rw [List.cons_append]
    unfold validateTopicsLoop
    simp only [hu, Bool.false_eq_true, if_false]
    apply ih _ hnodup.2
    · intro v hv
      have hne : v.Topic ≠ u.Topic := by
        intro heq
        exact hnodup.1 (heq ▸ List.mem_map_of_mem (·.Topic) (List.mem_append_left _ hv))
      rw [TopicMap.store_other _ _ _ _ hne]
      exact hpre v (List.mem_cons_of_mem _ hv)
    · exact TopicMap.store_isSome _ _ _ _ ht

/-- C1 (the code departs from the claim): with `y` registered, `validateTopics` on the
request `z`, `y` returns the duplicate-subscription error for `y`, yet `z`, absent before
the call, is left registered as engaged: the failed call is not all-or-nothing. -/
theorem validateTopics_partial_registration :
    (Client.validateTopics ⟨none, TopicMap.empty.store "y" true⟩
      [⟨"z", 0⟩, ⟨"y", 1⟩]).1 = some (duplicateSubscriptionErr "y") ∧
    (TopicMap.empty.store "y" true) "z" = none ∧
    (Client.validateTopics ⟨none, TopicMap.empty.store "y" true⟩
      [⟨"z", 0⟩, ⟨"y", 1⟩]).2.existingTopics "z" = some true := by
  decide

/-- C2 (the code departs from the claim): on a configured client with an empty registry,
`Unsubscribe` of the never-subscribed topic `t` returns no error but creates the entry
`t ↦ false`; no receive loop owns that entry, and a later `Subscribe` of `t` is rejected as
a duplicate. -/
theorem Unsubscribe_absent_topic_creates_entry :
    (Client.Unsubscribe ⟨some ⟨[], fun _ => none⟩, TopicMap.empty⟩ ["t"]).1 = none ∧
    TopicMap.empty "t" = none ∧
    (Client.Unsubscribe ⟨some ⟨[], fun _ => none⟩, TopicMap.empty⟩
      ["t"]).2.existingTopics "t" = some false ∧
    (System.Subscribe
      ⟨(Client.Unsubscribe ⟨some ⟨[], fun _ => none⟩, TopicMap.empty⟩ ["t"]).2, []⟩
      [⟨"t", 0⟩]).1 = some (duplicateSubscriptionErr "t") := by
  decide

/-- C4: for pairwise-distinct requested topics, `validateTopics` returns an error exactly
when some requested topic already has a registry entry (with either flag); the error is the
duplicate-subscription error naming the first such topic in request order; and `Subscribe`
on a configured client returns what `validateTopics` returns. -/
theorem validateTopics_error_iff_conflict (s : System) (topics : List TopicChannel)
    (hdistinct : (topics.map (·.Topic)).Nodup) :
    (((s.client.validateTopics topics).1.isSome ↔
        ∃ t ∈ topics, s.client.existingTopics t.Topic = some true ∨
          s.client.existingTopics t.Topic = some false) ∧
      (∀ pre t post, topics = pre ++ t :: post →
        (∀ u ∈ pre, s.client.existingTopics u.Topic = none) →
        (s.client.existingTopics t.Topic).isSome →
        (s.client.validateTopics topics).1 = some (duplicateSubscriptionErr t.Topic) ∧
        (duplicateSubscriptionErr t.Topic).Error =
          "subscription for \x27" ++ t.Topic ++ "\x27 topic already exists, must be unique")) ∧
    (s.client.redisClient.isSome →
      (s.Subscribe topics).1 = (s.client.validateTopics topics).1) := by
  have hfst : (s.client.validateTopics topics).1 =
      (validateTopicsLoop s.client.existingTopics topics).1 := by
    simp only [Client.validateTopics]
  have hentry : ∀ t : TopicChannel, (s.client.existingTopics t.Topic).isSome ↔
      (s.client.existingTopics t.Topic = some true ∨
        s.client.existingTopics t.Topic = some false) := by
    intro t
    cases s.client.existingTopics t.Topic with
    | none => simp
    | some b => cases b <;> simp
  refine ⟨⟨⟨?_, ?_⟩, ?_⟩, ?_⟩
  · intro h
    rw [hfst] at h
    obtain ⟨t, ht, hsome⟩ := validateTopicsLoop_entry_of_conflict topics _ hdistinct h
    exact ⟨t, ht, (hentry t).mp hsome⟩
  · rintro ⟨t, ht, hsome⟩
    rw [hfst]
    exact validateTopicsLoop_conflict_of_entry topics _ ⟨t, ht, (hentry t).mpr hsome⟩
  · intro pre t post htopics hpre ht
    subst htopics
    rw [hfst]
    exact ⟨validateTopicsLoop_names_first pre t post _ hdistinct hpre ht, rfl⟩
  · intro hconf
    unfold System.Subscribe
    cases hr : s.client.redisClient with
    | none => simp [hr] at hconf
    | some r =>
      simp only []
      cases hv : (s.client.validateTopics topics) with
      | mk err client =>
        cases err <;> simp

/-- Witness for C4: the registry holds `y` with flag `false`; the request `x`, `y`, `z`. -/
theorem validateTopics_error_iff_conflict_witness :
    (System.Subscribe ⟨⟨some ⟨[], fun _ => none⟩, TopicMap.empty.store "y" false⟩, []⟩
        [⟨"x", 0⟩, ⟨"y", 1⟩, ⟨"z", 2⟩]).1 = some (duplicateSubscriptionErr "y") := by
  have h := validateTopics_error_iff_conflict
    ⟨⟨some ⟨[], fun _ => none⟩, TopicMap.empty.store "y" false⟩, []⟩
    [⟨"x", 0⟩, ⟨"y", 1⟩, ⟨"z", 2⟩] (by decide)
  rw [h.2 (by decide)]
  exact (h.1.2 [⟨"x", 0⟩] ⟨"y", 1⟩ [⟨"z", 2⟩] rfl (by decide) (by decide)).1

/-! ## Topic translation -/

theorem replaceFrom_single (a b : Char) (l : List Char) :
    replaceFrom [a] [b] 0 l = l.map (fun c => if c = a then b else c) := by
  induction l with
  | nil => rfl
  | cons c cs ih =>
    by_cases h : a = c
    · subst h
      simp [replaceFrom, List.isPrefixOf, ih]
    · have h' : ¬ c = a := fun e => h e.symm
      simp [replaceFrom, List.isPrefixOf, h, h', ih]

theorem convertToRedisTopicScheme_data (topic : String) :
    (convertToRedisTopicScheme topic).data = topic.data.map toRedisChar := by
  simp only [convertToRedisTopicScheme, stringsReplaceAll, StandardTopicSeparator,
    RedisTopicSeparator, StandardWildcard, SingleLevelWildcard, RedisWildcard]
  simp only [show ("/" : String).data = ['/'] from rfl, show ("." : String).data = ['.'] from rfl,
    show ("#" : String).data = ['#'] from rfl, show ("*" : String).data = ['*'] from rfl,
    show ("+" : String).data = ['+'] from rfl, List.cons_ne_nil, if_false, replaceFrom_single,
    List.map_map]
  apply List.map_congr_left
  intro c _
  simp only [Function.comp, toRedisChar]
  by_cases h1 : c = '/'
  · subst h1; decide
  · by_cases h2 : c = '#'
    · subst h2; decide
    · by_cases h3 : c = '+'
      · subst h3; decide
      · simp [h1, h2, h3]

theorem replaceFrom_pair_match (rest : List Char) :
    replaceFrom ['*', '.'] ['+', '/'] 0 ('*' :: '.' :: rest) =
      '+' :: '/' :: replaceFrom ['*', '.'] ['+', '/'] 0 rest := by
  simp [replaceFrom, List.isPrefixOf]

theorem replaceFrom_pair_skip (c : Char) (rest : List Char)
    (h : ¬ (c = '*' ∧ rest.head? = some '.')) :
    replaceFrom ['*', '.'] ['+', '/'] 0 (c :: rest) =
      c :: replaceFrom ['*', '.'] ['+', '/'] 0 rest := by
  cases rest with
  | nil => simp [replaceFrom, List.isPrefixOf]
  | cons d rest =>
    have h' : ¬ ('*' = c ∧ '.' = d) := by
      rintro ⟨h1, h2⟩
      exact h ⟨h1.symm, by simp [← h2]⟩
    rw [replaceFrom]
    simp only [List.isPrefixOf, Bool.and_true, Bool.and_eq_true, beq_iff_eq, h', if_false]

theorem fromRedisChars_cons (c : Char) (rest : List Char) :
    fromRedisChars (c :: rest) =
      (if c = '*' then (if rest.head? = some '.' then '+' else '#')
        else if c = '.' then '/' else c) :: fromRedisChars rest := rfl

theorem replaceFrom_wildcard_separator (n : Nat) :
    ∀ l : List Char, l.length ≤ n →
      (replaceFrom ['*', '.'] ['+', '/'] 0 l).map
        (fun c => if c = '.' then '/' else if c = '*' then '#' else c) = fromRedisChars l := by
  induction n with
  | zero =>
    intro l hl
    have : l = [] := List.eq_nil_of_length_eq_zero (Nat.le_zero.mp hl)
    subst this
    rfl
  | succ n ih =>
    intro l hl
    cases l with
    | nil => rfl
    | cons c rest =>
      have hrest : rest.length ≤ n := by simpa using hl
      by_cases h : c = '*' ∧ rest.head? = some '.'
      · obtain ⟨hc, hd⟩ := h
        subst hc
        cases rest with
        | nil => simp at hd
        | cons d rest =>
          have hd' : d = '.' := by simpa using hd
          subst hd'
          have hrest' : rest.length ≤ n := by simp at hrest; omega
          rw [replaceFrom_pair_match, List.map_cons, List.map_cons, ih rest hrest',
            fromRedisChars_cons, fromRedisChars_cons]
          simp
      · rw [replaceFrom_pair_skip c rest h, List.map_cons, ih rest hrest, fromRedisChars_cons]
        congr 1
        by_cases h1 : c = '*'
        · subst h1
          have : ¬ rest.head? = some '.' := fun e => h ⟨rfl, e⟩
          simp [this]
        · by_cases h2 : c = '.'
          · subst h2; simp
          · simp [h1, h2]

theorem convertFromRedisTopicScheme_data (topic : String) :
    (convertFromRedisTopicScheme topic).data = fromRedisChars topic.data := by
  simp only [convertFromRedisTopicScheme, stringsReplaceAll, StandardTopicSeparator,
    RedisTopicSeparator, StandardWildcard, SingleLevelWildcard, RedisWildcard]
  simp only [show ("*" ++ "." : String).data = ['*', '.'] from rfl,
    show ("+" ++ "/" : String).data = ['+', '/'] from rfl,
    show ("/" : String).data = ['/'] from rfl, show ("." : String).data = ['.'] from rfl,
    show ("#" : String).data = ['#'] from rfl, show ("*" : String).data = ['*'] from rfl,
    List.cons_ne_nil, if_false, replaceFrom_single, List.map_map]
  rw [← replaceFrom_wildcard_separator topic.data.length topic.data (le_refl _)]
  apply List.map_congr_left
  intro c _
  simp only [Function.comp]
  by_cases h1 : c = '.'
  · subst h1; decide
  · by_cases h2 : c = '*'
    · subst h2; decide
    · have h3 : ¬ (if c = '.' then '/' else c) = '*' := by simp [h1, h2]
      simp [h1, h2]

theorem roundTripSafe_head (l : List Char) (h : roundTripSafe l = true) :
    (l.map toRedisChar).head? = some '.' ↔ l.head? = some '/' := by
  cases l with
  | nil => simp
  | cons c rest =>
    simp only [List.map_cons, List.head?_cons, Option.some.injEq]
    by_cases h1 : c = '/'
    · subst h1; decide
    · by_cases h2 : c = '#'
      · subst h2; decide
      · by_cases h3 : c = '+'
        · subst h3; decide
        · simp only [roundTripSafe, h3, h2, if_false, Bool.and_eq_true, decide_eq_true_eq,
            Bool.decide_and] at h
          simp [toRedisChar, h1, h2, h3, h.1.1]

theorem fromRedisChars_toRedisChar (l : List Char) (h : roundTripSafe l = true) :
    fromRedisChars (l.map toRedisChar) = l := by
  induction l with
  | nil => rfl
  | cons c rest ih =>
    have hsplit : (if c = '+' then decide (rest.head? = some '/')
        else if c = '#' then decide (rest.head? ≠ some '/')
        else decide (c ≠ '.') && decide (c ≠ '*')) = true ∧ roundTripSafe rest = true := by
      simpa only [roundTripSafe, Bool.and_eq_true] using h
    obtain ⟨hc, hrest⟩ := hsplit
    rw [List.map_cons, fromRedisChars_cons, ih hrest]
    congr 1
    have hhead := roundTripSafe_head rest hrest
    by_cases h1 : c = '+'
    · subst h1
      have : rest.head? = some '/' := by simpa using hc
      rw [show toRedisChar '+' = '*' from rfl, if_pos rfl, if_pos (hhead.mpr this)]
    · by_cases h2 : c = '#'
      · subst h2
        have : ¬ rest.head? = some '/' := by simpa using hc
        rw [show toRedisChar '#' = '*' from rfl, if_pos rfl,
          if_neg (fun e => this (hhead.mp e))]
      · by_cases h3 : c = '/'
        · subst h3
          rw [show toRedisChar '/' = '.' from rfl, if_neg (by decide), if_pos rfl]
        · have h4 : c ≠ '.' ∧ c ≠ '*' := by simpa [h1, h2] using hc
          have h5 : toRedisChar c = c := by simp [toRedisChar, h1, h2, h3]
          rw [h5, if_neg h4.2, if_neg h4.1]

theorem topicLevels_ne_nil (l : List Char) : topicLevels l ≠ [] := by
  cases l with
  | nil => simp [topicLevels]
  | cons c cs =>
    unfold topicLevels
    split
    · simp
    · split <;> simp

theorem topicLevels_cons_separator (cs : List Char) :
    topicLevels ('/' :: cs) = [] :: topicLevels cs := by
  simp [topicLevels]

theorem topicLevels_cons_other (c : Char) (cs : List Char) (h : c ≠ '/') :
    ∃ level levels, topicLevels cs = level :: levels ∧
      topicLevels (c :: cs) = (c :: level) :: levels := by
  cases hL : topicLevels cs with
  | nil => exact absurd hL (topicLevels_ne_nil cs)
  | cons level levels =>
    refine ⟨level, levels, rfl, ?_⟩
    simp [topicLevels, h, hL]

theorem topicLevels_head_nil (cs : List Char) (levels : List (List Char))
    (h : topicLevels cs = [] :: levels) :
    (cs = [] ∧ levels = []) ∨ (cs.head? = some '/' ∧ levels ≠ []) := by
  cases cs with
  | nil =>
    left
    simpa [topicLevels] using h.symm
  | cons d ds =>
    right
    by_cases hd : d = '/'
    · subst hd
      rw [topicLevels_cons_separator] at h
      refine ⟨rfl, ?_⟩
      have : topicLevels ds = levels := by simpa using h
      rw [← this]
      exact topicLevels_ne_nil ds
    · obtain ⟨level, levels', _, h2⟩ := topicLevels_cons_other d ds hd
      rw [h2] at h
      simp at h

theorem StandardLevels_tail (c : Char) (cs : List Char)
    (h : StandardLevels (topicLevels (c :: cs))) : StandardLevels (topicLevels cs) := by
  by_cases hc : c = '/'
  · subst hc
    rw [topicLevels_cons_separator] at h
    refine ⟨fun level hl => h.1 level (List.mem_cons_of_mem _ hl), fun level hl => ?_⟩
    apply h.2 level
    rw [List.dropLast_cons_of_ne_nil (topicLevels_ne_nil cs)]
    exact List.mem_cons_of_mem _ hl
  · obtain ⟨level, levels, h1, h2⟩ := topicLevels_cons_other c cs hc
    rw [h2] at h
    rw [h1]
    refine ⟨fun lv hl => ?_, fun lv hl => ?_⟩
    · rcases List.mem_cons.mp hl with rfl | hmem
      · have hhead := h.1 (c :: lv) (List.mem_cons_self _ _)
        constructor
        · intro hplus
          have := hhead.1 (List.mem_cons_of_mem _ hplus)
          simp only [List.cons.injEq] at this
          rw [this.2] at hplus
          simp at hplus
        · intro hhash
          have := hhead.2 (List.mem_cons_of_mem _ hhash)
          simp only [List.cons.injEq] at this
          rw [this.2] at hhash
          simp at hhash
      · exact h.1 lv (List.mem_cons_of_mem _ hmem)
    · cases levels with
      | nil => simp at hl
      | cons l2 ls =>
        rw [List.dropLast_cons_of_ne_nil (List.cons_ne_nil _ _)] at hl
        have h2' := h.2
        rw [List.dropLast_cons_of_ne_nil (List.cons_ne_nil _ _)] at h2'
        rcases List.mem_cons.mp hl with rfl | hmem
        · intro hhash
          exact h2' (c :: lv) (List.mem_cons_self _ _) (List.mem_cons_of_mem _ hhash)
        · exact h2' lv (List.mem_cons_of_mem _ hmem)

theorem getLast_tail_ne (c x : Char) (cs : List Char) (h : (c :: cs).getLast? ≠ some x) :
    cs.getLast? ≠ some x := by
  cases cs with
  | nil => simp
  | cons d ds => simpa using h

theorem roundTripSafe_of_standard (l : List Char) :
    StandardLevels (topicLevels l) → (∀ c ∈ l, c ≠ '.' ∧ c ≠ '*') →
      l.getLast? ≠ some '#' → l.getLast? ≠ some '+' → roundTripSafe l = true := by
  induction l with
  | nil => intros; rfl
  | cons c cs ih =>
    intro hstd hchars hhash hplus
    have hsafe : roundTripSafe cs = true :=
      ih (StandardLevels_tail c cs hstd) (fun d hd => hchars d (List.mem_cons_of_mem _ hd))
        (getLast_tail_ne c _ cs hhash) (getLast_tail_ne c _ cs hplus)
    have hc := hchars c (List.mem_cons_self _ _)
    simp only [roundTripSafe, hsafe, Bool.and_true]
    by_cases hsep : c = '/'
    · subst hsep; simp
    · obtain ⟨level, levels, h1, h2⟩ := topicLevels_cons_other c cs hsep
      rw [h2] at hstd
      have hhead := hstd.1 (c :: level) (List.mem_cons_self _ _)
      by_cases hp : c = '+'
      · subst hp
        have hlevel : level = [] := by
          have := hhead.1 (List.mem_cons_self _ _)
          simpa using this
        subst hlevel
        rcases topicLevels_head_nil cs levels h1 with ⟨hnil, _⟩ | ⟨hhd, _⟩
        · subst hnil
          simp at hplus
        · simp [hhd]
      · by_cases hh : c = '#'
        · subst hh
          exfalso
          have hlevel : level = [] := by
            have := hhead.2 (List.mem_cons_self _ _)
            simpa using this
          subst hlevel
          rcases topicLevels_head_nil cs levels h1 with ⟨hnil, _⟩ | ⟨_, hne⟩
          · subst hnil
            simp at hhash
          · have h2' := hstd.2
            rw [List.dropLast_cons_of_ne_nil hne] at h2'
            exact h2' ['#'] (List.mem_cons_self _ _) (List.mem_cons_self _ _)
        · simp [hp, hh, hc.1, hc.2]

theorem contains_false_iff (level : List Char) (c : Char) :
    level.contains c = false ↔ c ∉ level := by
  simp

theorem isStandardTopic_iff (topic : String) :
    isStandardTopic topic = true ↔
      (∀ c ∈ topic.data, c ≠ '.' ∧ c ≠ '*') ∧ StandardLevels (topicLevels topic.data) := by
  simp only [isStandardTopic, StandardLevels, Bool.and_eq_true, List.all_eq_true,
    Bool.or_eq_true, Bool.not_eq_true', beq_iff_eq, decide_eq_true_eq, Bool.decide_and,
    contains_false_iff, ne_eq]
  constructor
  · rintro ⟨⟨⟨h1, h2⟩, h3⟩, h4⟩
    refine ⟨h1, fun level hl => ⟨fun hp => ?_, fun hh => ?_⟩, h4⟩
    · exact (h2 level hl).resolve_left (fun hn => hn hp)
    · exact (h3 level hl).resolve_left (fun hn => hn hh)
  · rintro ⟨h1, h2, h4⟩
    refine ⟨⟨⟨h1, fun level hl => ?_⟩, fun level hl => ?_⟩, h4⟩
    · by_cases hp : '+' ∈ level
      · exact Or.inr ((h2 level hl).1 hp)
      · exact Or.inl hp
    · by_cases hh : '#' ∈ level
      · exact Or.inr ((h2 level hl).2 hh)
      · exact Or.inl hh

theorem stringsHasSuffix_single (s : String) (c : Char) :
    stringsHasSuffix s ⟨[c]⟩ = true ↔ s.data.getLast? = some c := by
  simp only [stringsHasSuffix, List.isSuffixOf_iff_suffix, List.getLast?_eq_some_iff]
  constructor
  · rintro ⟨ys, h⟩; exact ⟨ys, h.symm⟩
  · rintro ⟨ys, h⟩; exact ⟨ys, h.symm⟩

/-- C3 (counterexample to the claim as stated): the topic `a/+` is a standard topic whose
last level is the single-level wildcard; it does not end with the multi-level wildcard, yet
it is translated to `a.*` and back to `a/#`, not to itself. -/
theorem roundtrip_fails_for_trailing_single_level_wildcard :
    isStandardTopic "a/+" = true ∧ stringsHasSuffix "a/+" StandardWildcard = false ∧
    convertToRedisTopicScheme "a/+" = "a.*" ∧
    convertFromRedisTopicScheme (convertToRedisTopicScheme "a/+") = "a/#" ∧
    convertFromRedisTopicScheme (convertToRedisTopicScheme "a/+") ≠ "a/+" := by
  decide

/-- C3 (amended): every standard topic that ends neither with the multi-level wildcard `#`
nor with the single-level wildcard `+` is translated to the Redis scheme and back to
itself. -/
theorem roundtrip_standard_topic (t : String) (hstandard : isStandardTopic t = true)
    (hmulti : stringsHasSuffix t StandardWildcard = false)
    (hsingle : stringsHasSuffix t SingleLevelWildcard = false) :
    convertFromRedisTopicScheme (convertToRedisTopicScheme t) = t := by
  obtain ⟨hchars, hlevels⟩ := (isStandardTopic_iff t).mp hstandard
  have hhash : t.data.getLast? ≠ some '#' := by
    intro h
    have := (stringsHasSuffix_single t '#').mpr h
    rw [show (⟨['#']⟩ : String) = StandardWildcard from rfl, hmulti] at this
    exact Bool.false_ne_true this
  have hplus : t.data.getLast? ≠ some '+' := by
    intro h
    have := (stringsHasSuffix_single t '+').mpr h
    rw [show (⟨['+']⟩ : String) = SingleLevelWildcard from rfl, hsingle] at this
    exact Bool.false_ne_true this
  apply String.ext
  rw [convertFromRedisTopicScheme_data, convertToRedisTopicScheme_data]
  exact fromRedisChars_toRedisChar t.data
    (roundTripSafe_of_standard t.data hlevels hchars hhash hplus)

/-- Witness for C3 (amended): the standard topic `a/+/b`. -/
theorem roundtrip_standard_topic_witness :
    convertFromRedisTopicScheme (convertToRedisTopicScheme "a/+/b") = "a/+/b" :=
  roundtrip_standard_topic "a/+/b" (by decide) (by decide) (by decide)

/-! ## Publish, Unsubscribe and the receive loop -/

theorem Publish_existingTopics (c : Client) (message : MessageEnvelope) (topic : String) :
    (c.Publish message topic).2.existingTopics = c.existingTopics := by
  unfold Client.Publish
  cases c.redisClient with
  | none => rfl
  | some r =>
    simp only []
    split
    · rfl
    · split
      · split <;> rfl
      · rfl

theorem kickTopics_existingTopics (topics : List String) :
    ∀ c : Client, (kickTopics c topics).existingTopics = c.existingTopics := by
  induction topics with
  | nil => intro c; rfl
  | cons topic rest ih =>
    intro c
    rw [kickTopics, ih, Publish_existingTopics]

theorem disengageTopics_apply (topics : List String) :
    ∀ (m : TopicMap) (k : String),
      disengageTopics m topics k = if k ∈ topics then some false else m k := by
  induction topics with
  | nil => intro m k; simp [disengageTopics]
  | cons topic rest ih =>
    intro m k
    rw [disengageTopics, ih]
    by_cases h1 : k ∈ rest
    · simp [h1]
    · by_cases h2 : k = topic
      · subst h2; simp [h1, TopicMap.store_same]
      · simp [h1, h2, TopicMap.store_other]

theorem Unsubscribe_existingTopics (c : Client) (topics : List String) :
    (c.Unsubscribe topics).2.existingTopics = disengageTopics c.existingTopics topics := by
  simp only [Client.Unsubscribe, kickTopics_existingTopics]

theorem receiveIteration_of_not_engaged (r : RedisClient) (m : TopicMap) (loop : ReceiveLoop)
    (result : Except GoError MessageEnvelope) (h : m loop.topic.Topic ≠ some true) :
    receiveIteration r m loop result =
      (⟨r.calls ++ [RedisCall.Receive loop.topicName, RedisCall.Unsubscribe loop.topicName],
          r.outcome⟩,
        m.delete loop.topic.Topic, { loop with running := false }) := by
  have hlookup : m.lookup loop.topic.Topic = false := by
    unfold TopicMap.lookup
    cases hm : m loop.topic.Topic with
    | none => rfl
    | some b =>
      cases b with
      | false => rfl
      | true => exact absurd hm h
  simp [receiveIteration, hlookup, RedisClient.Receive, RedisClient.Unsubscribe]

/-- C5: in one iteration of a receive loop, whatever `Receive` returned, if the registry
flag of the topic is not `true` (it is `false` or there is no entry) the iteration logs the
`Receive`, deletes the registry entry, calls backend `Unsubscribe` with the translated
topic and stops the loop, with nothing sent on the message channel or the error channel.
Consequently, when a topic is engaged and `Unsubscribe` is called with it, the next
iteration of its loop (for any receive result, the kick envelope included) leaves the topic
without registry entry, the loop stopped, and nothing delivered. -/
theorem receiveIteration_exits_when_disengaged (r : RedisClient) (m : TopicMap)
    (loop : ReceiveLoop) (result : Except GoError MessageEnvelope) :
    (m loop.topic.Topic ≠ some true →
      (receiveIteration r m loop result).1.calls =
        r.calls ++ [RedisCall.Receive (convertToRedisTopicScheme loop.topic.Topic),
          RedisCall.Unsubscribe (convertToRedisTopicScheme loop.topic.Topic)] ∧
      (receiveIteration r m loop result).2.1 = m.delete loop.topic.Topic ∧
      (receiveIteration r m loop result).2.1 loop.topic.Topic = none ∧
      (receiveIteration r m loop result).2.2.running = false ∧
      (receiveIteration r m loop result).2.2.messages = loop.messages ∧
      (receiveIteration r m loop result).2.2.errors = loop.errors) ∧
    (∀ (c : Client) (topics : List String),
      c.existingTopics loop.topic.Topic = some true → loop.topic.Topic ∈ topics →
      ∀ r' : RedisClient, (c.Unsubscribe topics).2.redisClient = some r' →
        (c.Unsubscribe topics).1 = none ∧
        (c.Unsubscribe topics).2.existingTopics loop.topic.Topic = some false ∧
        (receiveIteration r' (c.Unsubscribe topics).2.existingTopics loop result).2.1
          loop.topic.Topic = none ∧
        (receiveIteration r' (c.Unsubscribe topics).2.existingTopics loop result).2.2.running
          = false ∧
        (receiveIteration r' (c.Unsubscribe topics).2.existingTopics loop result).2.2.messages
          = loop.messages ∧
        (receiveIteration r' (c.Unsubscribe topics).2.existingTopics loop result).2.2.errors
          = loop.errors) := by
  constructor
  · intro h
    rw [receiveIteration_of_not_engaged r m loop result h]
    exact ⟨rfl, rfl, TopicMap.delete_same _ _, rfl, rfl, rfl⟩
  · intro c topics _ hmem r' _
    have hflag : (c.Unsubscribe topics).2.existingTopics loop.topic.Topic = some false := by
      rw [Unsubscribe_existingTopics, disengageTopics_apply, if_pos hmem]
    have hne : (c.Unsubscribe topics).2.existingTopics loop.topic.Topic ≠ some true := by
      rw [hflag]; simp
    rw [receiveIteration_of_not_engaged r' _ loop result hne]
    exact ⟨rfl, hflag, TopicMap.delete_same _ _, rfl, rfl, rfl⟩

/-- Witness for C5: the loop of the engaged topic `a/#`, woken by the kick envelope after
`Unsubscribe`. -/
theorem receiveIteration_exits_when_disengaged_witness :
    (receiveIteration ⟨[], fun _ => none⟩ (TopicMap.empty.store "a/#" false)
        ⟨⟨"a/#", 0⟩, none, true, [], []⟩ (.ok { ReceivedTopic := "a.*" })).1.calls =
      [] ++ [RedisCall.Receive (convertToRedisTopicScheme "a/#"),
        RedisCall.Unsubscribe (convertToRedisTopicScheme "a/#")] ∧
    (receiveIteration ⟨[RedisCall.Send "a.*" {}], fun _ => none⟩
        ((⟨some ⟨[], fun _ => none⟩, TopicMap.empty.store "a/#" true⟩ : Client).Unsubscribe
          ["a/#"]).2.existingTopics
        ⟨⟨"a/#", 0⟩, none, true, [], []⟩ (.ok { ReceivedTopic := "a.*" })).2.2.messages = [] :=
  ⟨((receiveIteration_exits_when_disengaged ⟨[], fun _ => none⟩
      (TopicMap.empty.store "a/#" false)
      ⟨⟨"a/#", 0⟩, none, true, [], []⟩ (.ok { ReceivedTopic := "a.*" })).1 (by decide)).1,
    ((receiveIteration_exits_when_disengaged ⟨[], fun _ => none⟩
      (TopicMap.empty.store "a/#" false)
      ⟨⟨"a/#", 0⟩, none, true, [], []⟩ (.ok { ReceivedTopic := "a.*" })).2
      ⟨some ⟨[], fun _ => none⟩, TopicMap.empty.store "a/#" true⟩ ["a/#"] (by decide)
      (by decide) ⟨[RedisCall.Send "a.*" {}], fun _ => none⟩ rfl).2.2.2.2.1⟩

theorem forwardedErrors_nil (previous : Option GoError) : forwardedErrors previous [] = [] := rfl

theorem forwardedErrors_cons_ok (previous : Option GoError) (message : MessageEnvelope)
    (rest : List (Except GoError MessageEnvelope)) :
    forwardedErrors previous (.ok message :: rest) = forwardedErrors none rest := by
  simp [forwardedErrors, resultError]

theorem forwardedErrors_cons_same (err : GoError)
    (rest : List (Except GoError MessageEnvelope)) :
    forwardedErrors (some err) (.error err :: rest) = forwardedErrors (some err) rest := by
  simp [forwardedErrors, resultError]

theorem forwardedErrors_cons_new (previous : Option GoError) (err : GoError)
    (rest : List (Except GoError MessageEnvelope)) (h : previous ≠ some err) :
    forwardedErrors previous (.error err :: rest) = err :: forwardedErrors (some err) rest := by
  simp [forwardedErrors, resultError, h]

theorem sameAsPrevious_iff (err : GoError) (previous : Option GoError) :
    sameAsPrevious err previous = true ↔ previous = some err := by
  cases previous with
  | none => simp [sameAsPrevious]
  | some p =>
    simp only [sameAsPrevious, reflectDeepEqual, decide_eq_true_eq, Option.some.injEq]
    exact eq_comm

theorem lookup_of_engaged (m : TopicMap) (k : String) (h : m k = some true) :
    m.lookup k = true := by
  simp [TopicMap.lookup, h]

theorem runReceiveLoop_engaged (results : List (Except GoError MessageEnvelope)) :
    ∀ (r : RedisClient) (m : TopicMap) (loop : ReceiveLoop),
      m loop.topic.Topic = some true → loop.running = true →
      (runReceiveLoop r m loop results).2.1 = m ∧
      (runReceiveLoop r m loop results).2.2.running = true ∧
      (runReceiveLoop r m loop results).2.2.errors =
        loop.errors ++ forwardedErrors loop.previousErr results := by
  induction results with
  | nil => intro r m loop _ hrun; simp [runReceiveLoop, hrun, forwardedErrors_nil]
  | cons result rest ih =>
    intro r m loop hm hrun
    have hl := lookup_of_engaged m _ hm
    cases result with
    | ok message =>
      have hstep : runReceiveLoop r m loop (.ok message :: rest) =
          runReceiveLoop (r.Receive loop.topicName) m
            { loop with previousErr := none, messages := loop.messages ++
              [{ message with
                ReceivedTopic := convertFromRedisTopicScheme message.ReceivedTopic }] } rest := by
        simp [runReceiveLoop, hrun, receiveIteration, hl]
      rw [hstep, forwardedErrors_cons_ok]
      exact ih _ m _ hm hrun
    | error err =>
      by_cases hsame : loop.previousErr = some err
      · have hstep : runReceiveLoop r m loop (.error err :: rest) =
            runReceiveLoop (r.Receive loop.topicName) m loop rest := by
          simp [runReceiveLoop, hrun, receiveIteration, hl, (sameAsPrevious_iff err _).mpr hsame]
        rw [hstep, hsame, forwardedErrors_cons_same, ← hsame]
        exact ih _ m _ hm hrun
      · have hnot : sameAsPrevious err loop.previousErr = false := by
          cases h : sameAsPrevious err loop.previousErr with
          | false => rfl
          | true => exact absurd ((sameAsPrevious_iff err _).mp h) hsame
        have hstep : runReceiveLoop r m loop (.error err :: rest) =
            runReceiveLoop (r.Receive loop.topicName) m
              { loop with errors := loop.errors ++ [err], previousErr := some err } rest := by
          simp [runReceiveLoop, hrun, receiveIteration, hl, hnot]
        rw [hstep, forwardedErrors_cons_new _ _ _ hsame]
        have := ih (r.Receive loop.topicName) m
          { loop with errors := loop.errors ++ [err], previousErr := some err } hm hrun
        simpa using this

theorem forwardedErrors_replicate_same (err : GoError) (n : Nat)
    (rest : List (Except GoError MessageEnvelope)) :
    forwardedErrors (some err) (List.replicate n (.error err) ++ rest) =
      forwardedErrors (some err) rest := by
  induction n with
  | zero => rfl
  | succ n ih => rw [List.replicate_succ, List.cons_append, forwardedErrors_cons_same, ih]

theorem forwardedErrors_append_ok (pre : List (Except GoError MessageEnvelope))
    (message : MessageEnvelope) (rest : List (Except GoError MessageEnvelope)) :
    ∀ previous : Option GoError,
      forwardedErrors previous (pre ++ .ok message :: rest) =
        forwardedErrors previous pre ++ forwardedErrors none rest := by
  induction pre with
  | nil => intro previous; rw [List.nil_append, forwardedErrors_cons_ok, forwardedErrors_nil,
      List.nil_append]
  | cons result pre ih =>
    intro previous
    cases result with
    | ok message' => rw [List.cons_append, forwardedErrors_cons_ok, forwardedErrors_cons_ok, ih]
    | error err =>
      by_cases hsame : previous = some err
      · subst hsame
        rw [List.cons_append, forwardedErrors_cons_same, forwardedErrors_cons_same, ih]
      · rw [List.cons_append, forwardedErrors_cons_new _ _ _ hsame,
          forwardedErrors_cons_new _ _ _ hsame, ih, List.cons_append]

/-- C6: a receive loop started for a topic that stays engaged forwards on the error channel,
in order, exactly the failed results whose error differs from the error of the immediately
preceding result.  So a failed first result is forwarded, a failure right after a
successful receive is forwarded, `n + 1` identical errors in a row give exactly one
notification, and a different error after them is forwarded again. -/
theorem receive_loop_forwards_changed_errors (r : RedisClient) (m : TopicMap)
    (topic : TopicChannel) (results : List (Except GoError MessageEnvelope))
    (hengaged : m topic.Topic = some true) :
    (runReceiveLoop (startReceiveLoop r topic).1 m (startReceiveLoop r topic).2
        results).2.2.errors = forwardedErrors none results ∧
    (∀ err rest, results = .error err :: rest →
      (runReceiveLoop (startReceiveLoop r topic).1 m (startReceiveLoop r topic).2
        results).2.2.errors = err :: forwardedErrors (some err) rest) ∧
    (∀ pre message err post, results = pre ++ .ok message :: .error err :: post →
      (runReceiveLoop (startReceiveLoop r topic).1 m (startReceiveLoop r topic).2
        results).2.2.errors =
          forwardedErrors none pre ++ err :: forwardedErrors (some err) post) ∧
    (∀ err n, results = List.replicate (n + 1) (.error err) →
      (runReceiveLoop (startReceiveLoop r topic).1 m (startReceiveLoop r topic).2
        results).2.2.errors = [err]) ∧
    (∀ err err' n, err' ≠ err →
      results = List.replicate (n + 1) (.error err) ++ [.error err'] →
      (runReceiveLoop (startReceiveLoop r topic).1 m (startReceiveLoop r topic).2
        results).2.2.errors = [err, err']) := by
  have hmain : (runReceiveLoop (startReceiveLoop r topic).1 m (startReceiveLoop r topic).2
      results).2.2.errors = forwardedErrors none results := by
    have := (runReceiveLoop_engaged results (startReceiveLoop r topic).1 m
      (startReceiveLoop r topic).2 hengaged rfl).2.2
    simpa [startReceiveLoop] using this
  rw [hmain]
  refine ⟨rfl, ?_, ?_, ?_, ?_⟩
  · intro err rest hres
    rw [hres, forwardedErrors_cons_new _ _ _ (by simp)]
  · intro pre message err post hres
    rw [hres, forwardedErrors_append_ok, forwardedErrors_cons_new _ _ _ (by simp)]
  · intro err n hres
    rw [hres, List.replicate_succ, forwardedErrors_cons_new _ _ _ (by simp)]
    have := forwardedErrors_replicate_same err n []
    rw [List.append_nil] at this
    rw [this, forwardedErrors_nil]
  · intro err err' n hne hres
    have hne' : some err ≠ some err' := by
      intro h
      exact hne (Option.some.inj h).symm
    rw [hres, List.replicate_succ, List.cons_append, forwardedErrors_cons_new _ _ _ (by simp),
      forwardedErrors_replicate_same, forwardedErrors_cons_new _ _ _ hne', forwardedErrors_nil]

/-- Witness for C6: the error `a` three times, then the error `b`. -/
theorem receive_loop_forwards_changed_errors_witness :
    (runReceiveLoop (startReceiveLoop ⟨[], fun _ => none⟩ ⟨"t", 0⟩).1
        (TopicMap.empty.store "t" true) (startReceiveLoop ⟨[], fun _ => none⟩ ⟨"t", 0⟩).2
        (List.replicate (2 + 1) (.error (.errorString "a")) ++
          [.error (.errorString "b")])).2.2.errors =
      [.errorString "a", .errorString "b"] :=
  (receive_loop_forwards_changed_errors ⟨[], fun _ => none⟩ (TopicMap.empty.store "t" true)
    ⟨"t", 0⟩ _ (by decide)).2.2.2.2 (.errorString "a") (.errorString "b") 2 (by decide) rfl

/-- C7: on a configured client and for a non-empty topic, `Publish` calls backend `Send`
with the translated topic and the message.  If that first `Send` succeeds, or fails with an
error whose text does not contain `EOF`, it is the only call and its result is returned; if
it fails with an error whose text contains `EOF`, `Send` is called a second time with the
same arguments, there is no third call, and the result of the second call is returned
whatever it is. -/
theorem Publish_sends_once_or_retries_once (c : Client) (r : RedisClient)
    (message : MessageEnvelope) (topic : String)
    (hconfigured : c.redisClient = some r) (htopic : topic ≠ "") :
    ((r.outcome (r.calls ++ [RedisCall.Send (convertToRedisTopicScheme topic) message]) = none ∨
        (∃ err, r.outcome (r.calls ++ [RedisCall.Send (convertToRedisTopicScheme topic) message])
            = some err ∧ stringsContains err.Error "EOF" = false)) →
      (c.Publish message topic).1 =
        r.outcome (r.calls ++ [RedisCall.Send (convertToRedisTopicScheme topic) message]) ∧
      (c.Publish message topic).2.redisClient = some
        ⟨r.calls ++ [RedisCall.Send (convertToRedisTopicScheme topic) message], r.outcome⟩) ∧
    (∀ err, r.outcome (r.calls ++ [RedisCall.Send (convertToRedisTopicScheme topic) message])
          = some err → stringsContains err.Error "EOF" = true →
      (c.Publish message topic).1 =
        r.outcome (r.calls ++ [RedisCall.Send (convertToRedisTopicScheme topic) message,
          RedisCall.Send (convertToRedisTopicScheme topic) message]) ∧
      (c.Publish message topic).2.redisClient = some
        ⟨r.calls ++ [RedisCall.Send (convertToRedisTopicScheme topic) message,
          RedisCall.Send (convertToRedisTopicScheme topic) message], r.outcome⟩) := by
  constructor
  · rintro (hnone | ⟨err, herr, heof⟩)
    · simp [Client.Publish, hconfigured, htopic, RedisClient.Send, hnone]
    · simp [Client.Publish, hconfigured, htopic, RedisClient.Send, herr, heof]
  · intro err herr heof
    simp [Client.Publish, hconfigured, htopic, RedisClient.Send, herr, heof]

/-- Witness for C7: a backend whose first `Send` fails with `EOF` and whose second `Send`
fails with `EOF` again. -/
theorem Publish_sends_once_or_retries_once_witness :
    ((⟨some ⟨[], fun _ => some (.errorString "EOF")⟩, TopicMap.empty⟩ : Client).Publish
        {} "a/b").1 = some (.errorString "EOF") ∧
    ((⟨some ⟨[], fun _ => some (.errorString "EOF")⟩, TopicMap.empty⟩ : Client).Publish
        {} "a/b").2.redisClient =
      some ⟨[] ++ [RedisCall.Send (convertToRedisTopicScheme "a/b") {},
        RedisCall.Send (convertToRedisTopicScheme "a/b") {}],
        fun _ => some (.errorString "EOF")⟩ :=
  (Publish_sends_once_or_retries_once
    ⟨some ⟨[], fun _ => some (.errorString "EOF")⟩, TopicMap.empty⟩
    ⟨[], fun _ => some (.errorString "EOF")⟩ {} "a/b" rfl (by decide)).2
    (.errorString "EOF") rfl (by decide)

/-- C8: `Publish` on a client without backend connection returns the missing-configuration
error for every topic, the empty one included; `Publish` with the empty topic on a
configured client returns the invalid-topic error; in both cases the client, and with it
the log of backend calls, is unchanged, so `Send` is not called. -/
theorem Publish_rejects_unconfigured_and_empty_topic :
    (∀ (existingTopics : TopicMap) (message : MessageEnvelope) (topic : String),
      (⟨none, existingTopics⟩ : Client).Publish message topic =
        (some (.MissingConfigurationErr "Broker" "Unable to create a connection for publishing"),
          ⟨none, existingTopics⟩)) ∧
    (∀ (r : RedisClient) (existingTopics : TopicMap) (message : MessageEnvelope),
      (⟨some r, existingTopics⟩ : Client).Publish message "" =
        (some (.InvalidTopicErr "" "Unable to publish to the invalid topic"),
          ⟨some r, existingTopics⟩)) := by
  constructor
  · intro existingTopics message topic
    rfl
  · intro r existingTopics message
    rfl

/-- C9: `Subscribe` on a client without backend connection returns the missing-configuration
error and changes nothing: the registry is the same and no receive loop has been
started. -/
theorem Subscribe_unconfigured_has_no_effect (existingTopics : TopicMap)
    (loops : List ReceiveLoop) (topics : List TopicChannel) :
    (System.Subscribe ⟨⟨none, existingTopics⟩, loops⟩ topics).1 =
      some (.MissingConfigurationErr "Broker" "Unable to create a connection for subscribing") ∧
    (System.Subscribe ⟨⟨none, existingTopics⟩, loops⟩ topics).2.client.existingTopics
      = existingTopics ∧
    (System.Subscribe ⟨⟨none, existingTopics⟩, loops⟩ topics).2.loops = loops ∧
    (System.Subscribe ⟨⟨none, existingTopics⟩, loops⟩ topics).2.client.redisClient = none :=
  ⟨rfl, rfl, rfl, rfl⟩

/-! ## The patterns of a backend subscription -/

theorem convertToRedisTopicScheme_append (a b : String) :
    convertToRedisTopicScheme (a ++ b) =
      convertToRedisTopicScheme a ++ convertToRedisTopicScheme b := by
  apply String.ext
  simp only [String.data_append, convertToRedisTopicScheme_data, List.map_append]

theorem stringsHasSuffix_append (a b : String) : stringsHasSuffix (a ++ b) b = true := by
  simp only [stringsHasSuffix, List.isSuffixOf_iff_suffix, String.data_append]
  exact ⟨a.data, rfl⟩

theorem stringsTrimSuffix_append (a b : String) : stringsTrimSuffix (a ++ b) b = a := by
  rw [stringsTrimSuffix, if_pos (stringsHasSuffix_append a b)]
  apply String.ext
  simp [String.data_append]

theorem getSubscription_first (g : goRedisWrapper) (topic : String)
    (h : g.subscriptions topic = none) :
    (g.Subscribe topic).psubscribeCalls = g.psubscribeCalls ++
      [if stringsHasSuffix topic (RedisTopicSeparator ++ RedisWildcard) then
        [topic, stringsTrimSuffix topic (RedisTopicSeparator ++ RedisWildcard)]
      else [topic]] := by
  simp only [goRedisWrapper.Subscribe, goRedisWrapper.getSubscription, h]

/-- C10: for a topic `p/#` of the standard scheme with translation `r`, the first backend
subscribe for `r` (no subscription for `r` yet) issues one `PSubscribe` with exactly the two
patterns `r` and `r` without its trailing `.*`, which is the translation of `p`; for a
translated topic that does not end in `.*` it issues one `PSubscribe` with the single
pattern `r`.  The goroutine started by `Subscribe` makes its backend `Subscribe` call with
the translation of its topic. -/
theorem first_subscribe_patterns (g : goRedisWrapper) :
    (∀ p : String, g.subscriptions (convertToRedisTopicScheme (p ++ "/#")) = none →
      convertToRedisTopicScheme (p ++ "/#") = convertToRedisTopicScheme p ++ ".*" ∧
      stringsTrimSuffix (convertToRedisTopicScheme (p ++ "/#")) ".*"
        = convertToRedisTopicScheme p ∧
      (g.Subscribe (convertToRedisTopicScheme (p ++ "/#"))).psubscribeCalls =
        g.psubscribeCalls ++
          [[convertToRedisTopicScheme (p ++ "/#"),
            stringsTrimSuffix (convertToRedisTopicScheme (p ++ "/#")) ".*"]]) ∧
    (∀ r : String, g.subscriptions r = none → stringsHasSuffix r ".*" = false →
      (g.Subscribe r).psubscribeCalls = g.psubscribeCalls ++ [[r]]) ∧
    (∀ (redisClient : RedisClient) (topic : TopicChannel),
      (startReceiveLoop redisClient topic).1.calls =
        redisClient.calls ++ [RedisCall.Subscribe (convertToRedisTopicScheme topic.Topic)]) := by
  have hsuffix : RedisTopicSeparator ++ RedisWildcard = ".*" := rfl
  refine ⟨?_, ?_, fun _ _ => rfl⟩
  · intro p h
    have htrans : convertToRedisTopicScheme (p ++ "/#") = convertToRedisTopicScheme p ++ ".*" := by
      rw [convertToRedisTopicScheme_append]
      rfl
    refine ⟨htrans, ?_, ?_⟩
    · rw [htrans, stringsTrimSuffix_append]
    · rw [getSubscription_first g _ h, hsuffix, htrans, if_pos (stringsHasSuffix_append _ _)]
  · intro r h hno
    rw [getSubscription_first g _ h, hsuffix, hno]
    simp

/-- Witness for C10: the topic `a/b/#` gives the patterns `a.b.*` and `a.b`; the topic
`a/b` gives the pattern `a.b`. -/
theorem first_subscribe_patterns_witness :
    ((goRedisWrapper.mk (fun _ => none) []).Subscribe
        (convertToRedisTopicScheme ("a/b" ++ "/#"))).psubscribeCalls =
      [] ++ [[convertToRedisTopicScheme ("a/b" ++ "/#"),
        stringsTrimSuffix (convertToRedisTopicScheme ("a/b" ++ "/#")) ".*"]] ∧
    [[convertToRedisTopicScheme ("a/b" ++ "/#"),
        stringsTrimSuffix (convertToRedisTopicScheme ("a/b" ++ "/#")) ".*"]] =
      [["a.b.*", "a.b"]] ∧
    ((goRedisWrapper.mk (fun _ => none) []).Subscribe "a.b").psubscribeCalls = [] ++ [["a.b"]] :=
  ⟨((first_subscribe_patterns ⟨fun _ => none, []⟩).1 "a/b" rfl).2.2, by decide,
    (first_subscribe_patterns ⟨fun _ => none, []⟩).2.1 "a.b" rfl (by decide)⟩

/-! ## Delivery of received envelopes -/

theorem runReceiveLoop_engaged_messages (results : List (Except GoError MessageEnvelope)) :
    ∀ (r : RedisClient) (m : TopicMap) (loop : ReceiveLoop),
      m loop.topic.Topic = some true → loop.running = true →
      (runReceiveLoop r m loop results).2.2.messages =
        loop.messages ++ (receivedEnvelopes results).map deliveredEnvelope := by
  induction results with
  | nil => intro r m loop _ _; simp [runReceiveLoop, receivedEnvelopes]
  | cons result rest ih =>
    intro r m loop hm hrun
    have hl := lookup_of_engaged m _ hm
    cases result with
    | ok message =>
      have hstep : runReceiveLoop r m loop (.ok message :: rest) =
          runReceiveLoop (r.Receive loop.topicName) m
            { loop with previousErr := none, messages := loop.messages ++
              [{ message with
                ReceivedTopic := convertFromRedisTopicScheme message.ReceivedTopic }] } rest := by
        simp [runReceiveLoop, hrun, receiveIteration, hl]
      rw [hstep]
      have := ih (r.Receive loop.topicName) m
        { loop with previousErr := none, messages := loop.messages ++
          [{ message with
            ReceivedTopic := convertFromRedisTopicScheme message.ReceivedTopic }] } hm hrun
      simpa [receivedEnvelopes, deliveredEnvelope] using this
    | error err =>
      by_cases hsame : sameAsPrevious err loop.previousErr = true
      · have hstep : runReceiveLoop r m loop (.error err :: rest) =
            runReceiveLoop (r.Receive loop.topicName) m loop rest := by
          simp [runReceiveLoop, hrun, receiveIteration, hl, hsame]
        rw [hstep]
        have := ih (r.Receive loop.topicName) m loop hm hrun
        simpa [receivedEnvelopes] using this
      · have hstep : runReceiveLoop r m loop (.error err :: rest) =
            runReceiveLoop (r.Receive loop.topicName) m
              { loop with errors := loop.errors ++ [err], previousErr := some err } rest := by
          simp [runReceiveLoop, hrun, receiveIteration, hl, hsame]
        rw [hstep]
        have := ih (r.Receive loop.topicName) m
          { loop with errors := loop.errors ++ [err], previousErr := some err } hm hrun
        simpa [receivedEnvelopes] using this

/-- C11: a receive loop started for a topic that stays engaged sends on the message channel
exactly the successfully received envelopes, in the order the backend returned them, each
with its received-topic field replaced by the translation of the backend channel name to
the standard scheme and every other field unchanged. -/
theorem receive_loop_delivers_received_envelopes (r : RedisClient) (m : TopicMap)
    (topic : TopicChannel) (results : List (Except GoError MessageEnvelope))
    (hengaged : m topic.Topic = some true) :
    (runReceiveLoop (startReceiveLoop r topic).1 m (startReceiveLoop r topic).2
        results).2.2.messages = (receivedEnvelopes results).map deliveredEnvelope ∧
    (runReceiveLoop (startReceiveLoop r topic).1 m (startReceiveLoop r topic).2
        results).2.2.messages.length = (receivedEnvelopes results).length ∧
    (∀ (i : Nat) (received : MessageEnvelope), (receivedEnvelopes results)[i]? = some received →
      ∃ delivered, (runReceiveLoop (startReceiveLoop r topic).1 m (startReceiveLoop r topic).2
          results).2.2.messages[i]? = some delivered ∧
        delivered.ReceivedTopic = convertFromRedisTopicScheme received.ReceivedTopic ∧
        delivered.ApiVersion = received.ApiVersion ∧
        delivered.RequestID = received.RequestID ∧
        delivered.CorrelationID = received.CorrelationID ∧
        delivered.ContentType = received.ContentType ∧
        delivered.ErrorCode = received.ErrorCode ∧
        delivered.Payload = received.Payload ∧
        delivered.QueryParams = received.QueryParams) := by
  have hmain : (runReceiveLoop (startReceiveLoop r topic).1 m (startReceiveLoop r topic).2
      results).2.2.messages = (receivedEnvelopes results).map deliveredEnvelope := by
    have := runReceiveLoop_engaged_messages results (startReceiveLoop r topic).1 m
      (startReceiveLoop r topic).2 hengaged rfl
    simpa [startReceiveLoop] using this
  rw [hmain]
  refine ⟨rfl, List.length_map _ _, ?_⟩
  intro i received hi
  refine ⟨deliveredEnvelope received, ?_, rfl, rfl, rfl, rfl, rfl, rfl, rfl, rfl⟩
  rw [List.getElem?_map, hi]
  rfl

/-- Witness for C11: a success, a failure and a second success on the topic `a/+/b`. -/
theorem receive_loop_delivers_received_envelopes_witness :
    (runReceiveLoop (startReceiveLoop ⟨[], fun _ => none⟩ ⟨"a/+/b", 0⟩).1
        (TopicMap.empty.store "a/+/b" true)
        (startReceiveLoop ⟨[], fun _ => none⟩ ⟨"a/+/b", 0⟩).2
        [.ok { ReceivedTopic := "a.x.b", Payload := [1] }, .error (.errorString "EOF"),
          .ok { ReceivedTopic := "a.y.b", Payload := [2] }]).2.2.messages =
      (receivedEnvelopes [.ok { ReceivedTopic := "a.x.b", Payload := [1] },
        .error (.errorString "EOF"),
        .ok { ReceivedTopic := "a.y.b", Payload := [2] }]).map deliveredEnvelope :=
  (receive_loop_delivers_received_envelopes ⟨[], fun _ => none⟩
    (TopicMap.empty.store "a/+/b" true) ⟨"a/+/b", 0⟩ _ (by decide)).1

/-! ## Unsubscribe and Disconnect -/

/-- C12: `Unsubscribe` returns no error for every client (whatever the backend answers to
the kick publishes, and also without backend); every listed topic that had a registry entry
before the call has the entry with flag `false` after it; the entry of every topic that is
not listed is what it was. -/
theorem Unsubscribe_flips_listed_entries (c : Client) (topics : List String) :
    (c.Unsubscribe topics).1 = none ∧
    (∀ t ∈ topics, (c.existingTopics t = some true ∨ c.existingTopics t = some false) →
      (c.Unsubscribe topics).2.existingTopics t = some false) ∧
    (∀ t, t ∉ topics → (c.Unsubscribe topics).2.existingTopics t = c.existingTopics t) := by
  refine ⟨rfl, ?_, ?_⟩
  · intro t ht _
    rw [Unsubscribe_existingTopics, disengageTopics_apply, if_pos ht]
  · intro t ht
    rw [Unsubscribe_existingTopics, disengageTopics_apply, if_neg ht]

/-- Witness for C12: a backend that fails every `Send`; `x` is engaged and listed, `y` is
engaged and not listed. -/
theorem Unsubscribe_flips_listed_entries_witness :
    (Client.Unsubscribe ⟨some ⟨[], fun _ => some (.errorString "connection refused")⟩,
        (TopicMap.empty.store "x" true).store "y" true⟩ ["x"]).2.existingTopics "x"
      = some false ∧
    (Client.Unsubscribe ⟨some ⟨[], fun _ => some (.errorString "connection refused")⟩,
        (TopicMap.empty.store "x" true).store "y" true⟩ ["x"]).2.existingTopics "y"
      = ((TopicMap.empty.store "x" true).store "y" true) "y" :=
  ⟨(Unsubscribe_flips_listed_entries
      ⟨some ⟨[], fun _ => some (.errorString "connection refused")⟩,
        (TopicMap.empty.store "x" true).store "y" true⟩ ["x"]).2.1 "x" (by decide)
      (by decide),
    (Unsubscribe_flips_listed_entries
      ⟨some ⟨[], fun _ => some (.errorString "connection refused")⟩,
        (TopicMap.empty.store "x" true).store "y" true⟩ ["x"]).2.2 "y" (by decide)⟩

theorem stringsJoin_single (text sep : String) : stringsJoin [text] sep = text := by
  simp [stringsJoin, String.intercalate, String.intercalate.go]

theorem stringsJoin_pair (a b sep : String) : stringsJoin [a, b] sep = a ++ sep ++ b := by
  simp [stringsJoin, String.intercalate, String.intercalate.go]

/-- C16: `Disconnect` returns no error on a client without backend connection and when the
transport's `Close` succeeds.  When `Close` fails with the error `e`, it returns a
`DisconnectErr` with exactly one cause, and the message of that error is
`Unable to disconnect client(s): Unable to disconnect publish client: ` followed by the
text of `e`.  The message of a `DisconnectErr` with two causes joins them with a comma. -/
theorem Disconnect_reports_close_failure :
    (∀ existingTopics : TopicMap, (Client.Disconnect ⟨none, existingTopics⟩).1 = none) ∧
    (∀ (r : RedisClient) (existingTopics : TopicMap),
      r.outcome (r.calls ++ [RedisCall.Close]) = none →
      (Client.Disconnect ⟨some r, existingTopics⟩).1 = none) ∧
    (∀ (r : RedisClient) (existingTopics : TopicMap) (e : GoError),
      r.outcome (r.calls ++ [RedisCall.Close]) = some e →
      (Client.Disconnect ⟨some r, existingTopics⟩).1 =
        some (.DisconnectErr ["Unable to disconnect publish client: " ++ e.Error]) ∧
      (GoError.DisconnectErr ["Unable to disconnect publish client: " ++ e.Error]).Error =
        "Unable to disconnect client(s): Unable to disconnect publish client: " ++ e.Error) ∧
    (∀ a b : String,
      (GoError.DisconnectErr [a, b]).Error = "Unable to disconnect client(s): " ++ a ++ "," ++ b)
    := by
  refine ⟨fun _ => rfl, ?_, ?_, ?_⟩
  · intro r existingTopics hclose
    simp [Client.Disconnect, RedisClient.Close, hclose]
  · intro r existingTopics e hclose
    constructor
    · simp [Client.Disconnect, RedisClient.Close, hclose, NewDisconnectErr]
    · rw [GoError.Error, stringsJoin_single, ← String.append_assoc]
      rfl
  · intro a b
    rw [GoError.Error, stringsJoin_pair]
    simp only [String.append_assoc]

/-- Witness for C16: a transport whose `Close` fails with `use of closed connection`. -/
theorem Disconnect_reports_close_failure_witness :
    (Client.Disconnect
      ⟨some ⟨[], fun _ => some (.errorString "use of closed connection")⟩,
        TopicMap.empty⟩).1 =
      some (.DisconnectErr ["Unable to disconnect publish client: " ++
        (GoError.errorString "use of closed connection").Error]) :=
  (Disconnect_reports_close_failure.2.2.1
    ⟨[], fun _ => some (.errorString "use of closed connection")⟩ TopicMap.empty
    (.errorString "use of closed connection") rfl).1

/-! ## Characterisation of the two translations -/

theorem toRedisChar_not_standard (c : Char) :
    toRedisChar c ≠ '/' ∧ toRedisChar c ≠ '#' ∧ toRedisChar c ≠ '+' := by
  by_cases h1 : c = '/'
  · subst h1; decide
  · by_cases h2 : c = '#'
    · subst h2; decide
    · by_cases h3 : c = '+'
      · subst h3; decide
      · have h : toRedisChar c = c := by simp [toRedisChar, h1, h2, h3]
        rw [h]
        exact ⟨h1, h2, h3⟩

/-- C13: `convertToRedisTopicScheme` is the character-by-character image of its argument
under the map sending `/` to `.`, `#` to `*`, `+` to `*` and every other character to
itself; the result has the length of the argument and contains none of `/`, `#`, `+`; and
`a/b/#` is translated to `a.b.*`. -/
theorem convertToRedisTopicScheme_is_char_map (t : String) :
    (convertToRedisTopicScheme t).data = t.data.map toRedisChar ∧
    (∀ i : Nat, (convertToRedisTopicScheme t).data[i]? = (t.data[i]?).map toRedisChar) ∧
    toRedisChar '/' = '.' ∧ toRedisChar '#' = '*' ∧ toRedisChar '+' = '*' ∧
    (∀ c : Char, c ≠ '/' → c ≠ '#' → c ≠ '+' → toRedisChar c = c) ∧
    (convertToRedisTopicScheme t).length = t.length ∧
    '/' ∉ (convertToRedisTopicScheme t).data ∧
    '#' ∉ (convertToRedisTopicScheme t).data ∧
    '+' ∉ (convertToRedisTopicScheme t).data ∧
    convertToRedisTopicScheme "a/b/#" = "a.b.*" := by
  have hdata := convertToRedisTopicScheme_data t
  have hmem : ∀ x : Char, (x = '/' ∨ x = '#' ∨ x = '+') →
      x ∉ (convertToRedisTopicScheme t).data := by
    intro x hx hin
    rw [hdata, List.mem_map] at hin
    obtain ⟨c, _, hc⟩ := hin
    have h := toRedisChar_not_standard c
    rw [hc] at h
    rcases hx with rfl | rfl | rfl
    · exact h.1 rfl
    · exact h.2.1 rfl
    · exact h.2.2 rfl
  refine ⟨hdata, ?_, rfl, rfl, rfl, ?_, ?_, hmem _ (Or.inl rfl), hmem _ (Or.inr (Or.inl rfl)),
    hmem _ (Or.inr (Or.inr rfl)), by decide⟩
  · intro i
    rw [hdata, List.getElem?_map]
  · intro c h1 h2 h3
    simp [toRedisChar, h1, h2, h3]
  · simp only [String.length, hdata, List.length_map]

theorem fromRedisChars_length (l : List Char) : (fromRedisChars l).length = l.length := by
  induction l with
  | nil => rfl
  | cons c rest ih => rw [fromRedisChars_cons, List.length_cons, List.length_cons, ih]

theorem fromRedisChars_getElem (l : List Char) :
    ∀ (i : Nat) (c : Char), l[i]? = some c →
      (fromRedisChars l)[i]? =
        some (if c = '*' then (if l[i + 1]? = some '.' then '+' else '#')
          else if c = '.' then '/' else c) := by
  induction l with
  | nil => intro i c h; simp at h
  | cons d rest ih =>
    intro i c h
    rw [fromRedisChars_cons]
    cases i with
    | zero =>
      have hd : d = c := by simpa using h
      subst hd
      simp [List.head?_eq_getElem?]
    | succ i =>
      have hrest : rest[i]? = some c := by simpa using h
      simpa using ih i c hrest

/-- C14: `convertFromRedisTopicScheme` keeps the length of its argument and is obtained
position by position: a `*` immediately followed by `.` becomes `+`, any other `*` becomes
`#`, every `.` becomes `/`, and every other character is unchanged. -/
theorem convertFromRedisTopicScheme_positionwise (t : String) :
    (convertFromRedisTopicScheme t).length = t.length ∧
    (∀ i : Nat, t.data[i]? = some '*' → t.data[i + 1]? = some '.' →
      (convertFromRedisTopicScheme t).data[i]? = some '+') ∧
    (∀ i : Nat, t.data[i]? = some '*' → t.data[i + 1]? ≠ some '.' →
      (convertFromRedisTopicScheme t).data[i]? = some '#') ∧
    (∀ i : Nat, t.data[i]? = some '.' →
      (convertFromRedisTopicScheme t).data[i]? = some '/') ∧
    (∀ (i : Nat) (c : Char), t.data[i]? = some c → c ≠ '*' → c ≠ '.' →
      (convertFromRedisTopicScheme t).data[i]? = some c) := by
  have hdata := convertFromRedisTopicScheme_data t
  refine ⟨?_, ?_, ?_, ?_, ?_⟩
  · simp only [String.length, hdata, fromRedisChars_length]
  · intro i hi hnext
    rw [hdata, fromRedisChars_getElem _ i _ hi, if_pos rfl, if_pos hnext]
  · intro i hi hnext
    rw [hdata, fromRedisChars_getElem _ i _ hi, if_pos rfl, if_neg hnext]
  · intro i hi
    rw [hdata, fromRedisChars_getElem _ i _ hi, if_neg (by decide), if_pos rfl]
  · intro i c hi h1 h2
    rw [hdata, fromRedisChars_getElem _ i _ hi, if_neg h1, if_neg h2]

/-- Witness for C14: the backend topic `a.*.b.*` has a wildcard before a separator at
position 2 and a final wildcard at position 6. -/
theorem convertFromRedisTopicScheme_positionwise_witness :
    (convertFromRedisTopicScheme "a.*.b.*").data[2]? = some '+' ∧
    (convertFromRedisTopicScheme "a.*.b.*").data[6]? = some '#' ∧
    (convertFromRedisTopicScheme "a.*.b.*").data[1]? = some '/' ∧
    (convertFromRedisTopicScheme "a.*.b.*").data[0]? = some 'a' :=
  ⟨(convertFromRedisTopicScheme_positionwise "a.*.b.*").2.1 2 (by decide) (by decide),
    (convertFromRedisTopicScheme_positionwise "a.*.b.*").2.2.1 6 (by decide) (by decide),
    (convertFromRedisTopicScheme_positionwise "a.*.b.*").2.2.2.1 1 (by decide),
    (convertFromRedisTopicScheme_positionwise "a.*.b.*").2.2.2.2 0 'a' (by decide) (by decide)
      (by decide)⟩

theorem roundTripSafe_cons (c : Char) (rest : List Char) :
    roundTripSafe (c :: rest) =
      ((if c = '+' then decide (rest.head? = some '/')
        else if c = '#' then decide (rest.head? ≠ some '/')
        else decide (c ≠ '.') && decide (c ≠ '*')) && roundTripSafe rest) := rfl

theorem roundTripSafe_of_fixed (l : List Char)
    (h : fromRedisChars (l.map toRedisChar) = l) : roundTripSafe l = true := by
  induction l with
  | nil => rfl
  | cons c rest ih =>
    rw [List.map_cons, fromRedisChars_cons] at h
    have hhd := (List.cons.inj h).1
    have hrest : roundTripSafe rest = true := ih (List.cons.inj h).2
    have hhead := roundTripSafe_head rest hrest
    rw [roundTripSafe_cons, hrest, Bool.and_true]
    by_cases h1 : c = '+'
    · subst h1
      rw [if_pos rfl]
      rw [show toRedisChar '+' = '*' from rfl, if_pos rfl] at hhd
      by_cases hn : (rest.map toRedisChar).head? = some '.'
      · exact decide_eq_true (hhead.mp hn)
      · rw [if_neg hn] at hhd
        exact absurd hhd (by decide)
    · by_cases h2 : c = '#'
      · subst h2
        rw [if_neg (by decide), if_pos rfl]
        rw [show toRedisChar '#' = '*' from rfl, if_pos rfl] at hhd
        by_cases hn : (rest.map toRedisChar).head? = some '.'
        · rw [if_pos hn] at hhd
          exact absurd hhd (by decide)
        · exact decide_eq_true (fun e => hn (hhead.mpr e))
      · rw [if_neg h1, if_neg h2]
        by_cases h3 : c = '/'
        · subst h3; decide
        · have h5 : toRedisChar c = c := by simp [toRedisChar, h1, h2, h3]
          rw [h5] at hhd
          by_cases h6 : c = '*'
          · subst h6
            rw [if_pos rfl] at hhd
            split at hhd
            · exact absurd hhd (by decide)
            · exact absurd hhd (by decide)
          · rw [if_neg h6] at hhd
            by_cases h7 : c = '.'
            · subst h7
              rw [if_pos rfl] at hhd
              exact absurd hhd (by decide)
            · simp [h6, h7]

theorem roundTripSafe_iff_positions (l : List Char) :
    roundTripSafe l = true ↔
      (∀ c ∈ l, c ≠ '.' ∧ c ≠ '*') ∧
      (∀ i : Nat, l[i]? = some '+' → l[i + 1]? = some '/') ∧
      (∀ i : Nat, l[i]? = some '#' → l[i + 1]? ≠ some '/') := by
  induction l with
  | nil => simp [roundTripSafe]
  | cons c rest ih =>
    rw [roundTripSafe_cons, Bool.and_eq_true, ih]
    constructor
    · rintro ⟨hc, hchars, hplus, hhash⟩
      refine ⟨?_, ?_, ?_⟩
      · intro d hd
        rcases List.mem_cons.mp hd with rfl | hmem
        · by_cases h1 : d = '+'
          · subst h1; decide
          · by_cases h2 : d = '#'
            · subst h2; decide
            · simpa [h1, h2] using hc
        · exact hchars d hmem
      · intro i hi
        cases i with
        | zero =>
          have : c = '+' := by simpa using hi
          subst this
          simpa [List.head?_eq_getElem?] using hc
        | succ i =>
          have : rest[i]? = some '+' := by simpa using hi
          simpa using hplus i this
      · intro i hi
        cases i with
        | zero =>
          have : c = '#' := by simpa using hi
          subst this
          simpa [List.head?_eq_getElem?] using hc
        | succ i =>
          have : rest[i]? = some '#' := by simpa using hi
          simpa using hhash i this
    · rintro ⟨hchars, hplus, hhash⟩
      refine ⟨?_, fun d hd => hchars d (List.mem_cons_of_mem _ hd), ?_, ?_⟩
      · by_cases h1 : c = '+'
        · subst h1
          have := hplus 0 (by simp)
          simpa [List.head?_eq_getElem?] using this
        · by_cases h2 : c = '#'
          · subst h2
            have := hhash 0 (by simp)
            simpa [List.head?_eq_getElem?] using this
          · have := hchars c (List.mem_cons_self _ _)
            simp [h1, h2, this.1, this.2]
      · intro i hi
        have := hplus (i + 1) (by simpa using hi)
        simpa using this
      · intro i hi
        have := hhash (i + 1) (by simpa using hi)
        simpa using this

/-- C17: a string is translated to the Redis scheme and back to itself exactly when it
contains no `.` and no `*`, every `+` in it is immediately followed by `/`, and no `#` in
it is immediately followed by `/`.  So `a/#` is translated back to itself, while `a/+`
(ending in `+`) and `a/#/b` (a `#` level that is not the last) are not. -/
theorem roundtrip_iff_safe_positions (t : String) :
    (convertFromRedisTopicScheme (convertToRedisTopicScheme t) = t ↔
      (∀ c ∈ t.data, c ≠ '.' ∧ c ≠ '*') ∧
      (∀ i : Nat, t.data[i]? = some '+' → t.data[i + 1]? = some '/') ∧
      (∀ i : Nat, t.data[i]? = some '#' → t.data[i + 1]? ≠ some '/')) ∧
    convertFromRedisTopicScheme (convertToRedisTopicScheme "a/#") = "a/#" ∧
    convertFromRedisTopicScheme (convertToRedisTopicScheme "a/+") ≠ "a/+" ∧
    convertFromRedisTopicScheme (convertToRedisTopicScheme "a/#/b") ≠ "a/#/b" := by
  refine ⟨?_, by decide, by decide, by decide⟩
  rw [← roundTripSafe_iff_positions]
  constructor
  · intro h
    apply roundTripSafe_of_fixed
    have := congrArg String.data h
    rwa [convertFromRedisTopicScheme_data, convertToRedisTopicScheme_data] at this
  · intro h
    apply String.ext
    rw [convertFromRedisTopicScheme_data, convertToRedisTopicScheme_data]
    exact fromRedisChars_toRedisChar t.data h

/-- C18: for every `p`, the standard topics `p/#` and `p/+` have the same translation, the
translation of `p` followed by `.*`, and the first backend subscribe for either issues the
same pair of patterns: that translation and the translation of `p`.  So a subscription
ending in the single-level wildcard also subscribes to the parent channel. -/
theorem trailing_wildcards_give_same_patterns (g : goRedisWrapper) (p : String) :
    convertToRedisTopicScheme (p ++ "/#") = convertToRedisTopicScheme (p ++ "/+") ∧
    convertToRedisTopicScheme (p ++ "/+") = convertToRedisTopicScheme p ++ ".*" ∧
    (g.subscriptions (convertToRedisTopicScheme (p ++ "/+")) = none →
      (g.Subscribe (convertToRedisTopicScheme (p ++ "/#"))).psubscribeCalls =
        g.psubscribeCalls ++
          [[convertToRedisTopicScheme p ++ ".*", convertToRedisTopicScheme p]] ∧
      (g.Subscribe (convertToRedisTopicScheme (p ++ "/+"))).psubscribeCalls =
        g.psubscribeCalls ++
          [[convertToRedisTopicScheme p ++ ".*", convertToRedisTopicScheme p]]) := by
  have hplus : convertToRedisTopicScheme (p ++ "/+") = convertToRedisTopicScheme p ++ ".*" := by
    rw [convertToRedisTopicScheme_append]
    rfl
  have hhash : convertToRedisTopicScheme (p ++ "/#") = convertToRedisTopicScheme p ++ ".*" := by
    rw [convertToRedisTopicScheme_append]
    rfl
  refine ⟨hhash.trans hplus.symm, hplus, ?_⟩
  intro hfirst
  rw [hplus] at hfirst
  have hcalls := getSubscription_first g _ hfirst
  rw [show RedisTopicSeparator ++ RedisWildcard = ".*" from rfl,
    if_pos (stringsHasSuffix_append _ _), stringsTrimSuffix_append] at hcalls
  rw [hhash, hplus]
  exact ⟨hcalls, hcalls⟩

/-- Witness for C18: the topics `a/b/#` and `a/b/+` on a wrapper without subscriptions. -/
theorem trailing_wildcards_give_same_patterns_witness :
    (goRedisWrapper.Subscribe ⟨fun _ => none, []⟩
        (convertToRedisTopicScheme ("a/b" ++ "/+"))).psubscribeCalls =
      [] ++ [[convertToRedisTopicScheme "a/b" ++ ".*", convertToRedisTopicScheme "a/b"]] ∧
    [[convertToRedisTopicScheme "a/b" ++ ".*", convertToRedisTopicScheme "a/b"]] =
      [["a.b.*", "a.b"]] :=
  ⟨((trailing_wildcards_give_same_patterns ⟨fun _ => none, []⟩ "a/b").2.2 rfl).2,
    by decide⟩

/-! ## Subscribe returns after the backend subscriptions -/

theorem countP_set_of_getElem {α : Type} (p : α → Bool) (l : List α) :
    ∀ (i : Nat) (x a : α), l[i]? = some x →
      (l.set i a).countP p + (if p x then 1 else 0) = l.countP p + (if p a then 1 else 0) := by
  induction l with
  | nil => intro i x a h; simp at h
  | cons y rest ih =>
    intro i x a h
    cases i with
    | zero =>
      have : y = x := by simpa using h
      subst this
      rw [List.set_cons_zero, List.countP_cons, List.countP_cons]
      omega
    | succ i =>
      have hrest : rest[i]? = some x := by simpa using h
      have := ih i x a hrest
      rw [List.set_cons_succ, List.countP_cons, List.countP_cons]
      omega

theorem map_set_of_same {α β : Type} (f : α → β) (l : List α) :
    ∀ (i : Nat) (x a : α), l[i]? = some x → f a = f x → (l.set i a).map f = l.map f := by
  induction l with
  | nil => intro i x a h; simp at h
  | cons y rest ih =>
    intro i x a h hf
    cases i with
    | zero =>
      have : y = x := by simpa using h
      subst this
      rw [List.set_cons_zero, List.map_cons, List.map_cons, hf]
    | succ i =>
      have hrest : rest[i]? = some x := by simpa using h
      rw [List.set_cons_succ, List.map_cons, List.map_cons, ih i x a hrest hf]

theorem mem_of_getElem_some {α : Type} (l : List α) (i : Nat) (x : α) (h : l[i]? = some x) :
    x ∈ l := by
  obtain ⟨hi, hx⟩ := List.getElem?_eq_some_iff.mp h
  exact hx ▸ List.getElem_mem hi

theorem receiveIteration_topic (r : RedisClient) (m : TopicMap) (loop : ReceiveLoop)
    (result : Except GoError MessageEnvelope) :
    (receiveIteration r m loop result).2.2.topic = loop.topic := by
  unfold receiveIteration
  simp only []
  split
  · rfl
  · split
    · split <;> rfl
    · rfl

theorem receiveIteration_calls (r : RedisClient) (m : TopicMap) (loop : ReceiveLoop)
    (result : Except GoError MessageEnvelope) :
    ∃ extra, (receiveIteration r m loop result).1.calls = r.calls ++ extra := by
  unfold receiveIteration
  simp only []
  split
  · exact ⟨[RedisCall.Receive loop.topicName, RedisCall.Unsubscribe loop.topicName], by
      simp [RedisClient.Receive, RedisClient.Unsubscribe]⟩
  · split
    · split <;> exact ⟨[RedisCall.Receive loop.topicName], rfl⟩
    · exact ⟨[RedisCall.Receive loop.topicName], rfl⟩

theorem SubscribeRun.step_calls (s next : SubscribeRun) (turn : Turn)
    (h : s.step turn = some next) :
    ∃ extra, next.redisClient.calls = s.redisClient.calls ++ extra := by
  cases turn with
  | caller =>
    unfold SubscribeRun.step at h
    simp only [] at h
    split at h
    · cases h; exact ⟨[], (List.append_nil _).symm⟩
    · cases h; exact ⟨[], (List.append_nil _).symm⟩
    · split at h
      · cases h; exact ⟨[], (List.append_nil _).symm⟩
      · cases h
    · cases h
  | goroutine index received =>
    unfold SubscribeRun.step at h
    simp only [] at h
    split at h
    · cases h
    · cases h; exact ⟨_, rfl⟩
    · cases h; exact ⟨[], (List.append_nil _).symm⟩
    · split at h
      · cases h; exact receiveIteration_calls _ _ _ _
      · cases h

theorem SubscribeRun.Inv_step (topics : List TopicChannel) (s next : SubscribeRun)
    (turn : Turn) (hinv : SubscribeRun.Inv topics s) (h : s.step turn = some next) :
    SubscribeRun.Inv topics next := by
  cases turn with
  | caller =>
    unfold SubscribeRun.step at h
    simp only [] at h
    split at h
    · rename_i topic rest hcaller
      cases h
      refine ⟨?_, ?_, ?_, ?_⟩
      · simp only [List.countP_append, List.countP_cons, List.countP_nil]
        have := hinv.counter
        simp only [notDone] at this ⊢
        simp only [ne_eq, reduceCtorEq, not_false_eq_true, decide_True, if_true]
        omega
      · intro g hg hpc
        rcases List.mem_append.mp hg with hold | hnew
        · exact hinv.subscribed g hold hpc
        · have : g.1 = GoroutinePc.beforeSubscribe := by
            rw [List.mem_singleton.mp hnew]
          exact absurd this hpc
      · have := hinv.started
        rw [hcaller] at this
        simpa [SubscribePc.remaining] using this
      · intro hret
        cases hret
    · rename_i hcaller
      cases h
      refine ⟨hinv.counter, hinv.subscribed, ?_, ?_⟩
      · have := hinv.started
        rw [hcaller] at this
        simpa [SubscribePc.remaining] using this
      · intro hret
        cases hret
    · rename_i hcaller
      split at h
      · rename_i hzero
        cases h
        refine ⟨hinv.counter, hinv.subscribed, ?_, ?_⟩
        · have := hinv.started
          rw [hcaller] at this
          simpa [SubscribePc.remaining] using this
        · intro _ g hg
          have hcount : s.goroutines.countP notDone = 0 := by
            have := hinv.counter
            omega
          have hnot := (List.countP_eq_zero.mp hcount) g hg
          simpa [notDone] using hnot
      · cases h
    · cases h
  | goroutine index received =>
    unfold SubscribeRun.step at h
    simp only [] at h
    split at h
    · cases h
    · rename_i loop hget
      cases h
      have hmem := mem_of_getElem_some _ _ _ hget
      refine ⟨?_, ?_, ?_, ?_⟩
      · have := countP_set_of_getElem notDone s.goroutines index _
          (GoroutinePc.beforeDone, loop) hget
        have hc := hinv.counter
        simp only [notDone, ne_eq, reduceCtorEq, not_false_eq_true, decide_True, if_true]
          at this
        simp only [notDone] at hc ⊢
        omega
      · intro g hg hpc
        simp only [RedisClient.Subscribe]
        rcases List.mem_or_eq_of_mem_set hg with hold | hnew
        · exact List.mem_append_left _ (hinv.subscribed g hold hpc)
        · subst hnew
          exact List.mem_append_right _ (List.mem_singleton.mpr rfl)
      · show List.map (fun g => g.2.topic) (s.goroutines.set index _) ++ s.caller.remaining
          = topics
        rw [map_set_of_same (fun g : GoroutinePc × ReceiveLoop => g.2.topic) _ index _
          (GoroutinePc.beforeDone, loop) hget rfl]
        exact hinv.started
      · intro hret
        have := hinv.released hret _ hmem
        cases this
    · rename_i loop hget
      cases h
      have hmem := mem_of_getElem_some _ _ _ hget
      refine ⟨?_, ?_, ?_, ?_⟩
      · have := countP_set_of_getElem notDone s.goroutines index _
          (GoroutinePc.receiving, loop) hget
        have hc := hinv.counter
        simp only [notDone, ne_eq, reduceCtorEq, not_false_eq_true, decide_True, if_true,
          not_true_eq_false, decide_False, Bool.false_eq_true, if_false] at this
        simp only [notDone] at hc ⊢
        omega
      · intro g hg hpc
        rcases List.mem_or_eq_of_mem_set hg with hold | hnew
        · exact hinv.subscribed g hold hpc
        · subst hnew
          exact hinv.subscribed (GoroutinePc.beforeDone, loop) hmem (by simp)
      · show List.map (fun g => g.2.topic) (s.goroutines.set index _) ++ s.caller.remaining
          = topics
        rw [map_set_of_same (fun g : GoroutinePc × ReceiveLoop => g.2.topic) _ index _
          (GoroutinePc.receiving, loop) hget rfl]
        exact hinv.started
      · intro hret
        have := hinv.released hret _ hmem
        cases this
    · rename_i loop hget
      split at h
      · have hmem := mem_of_getElem_some _ _ _ hget
        obtain ⟨extra, hextra⟩ := receiveIteration_calls s.redisClient s.existingTopics loop
          received
        have htopic := receiveIteration_topic s.redisClient s.existingTopics loop received
        generalize receiveIteration s.redisClient s.existingTopics loop received = out
          at h hextra htopic
        cases h
        refine ⟨?_, ?_, ?_, ?_⟩
        · have := countP_set_of_getElem notDone s.goroutines index _
            (GoroutinePc.receiving, out.2.2) hget
          have hc := hinv.counter
          simp only [notDone, ne_eq, not_true_eq_false, decide_False, Bool.false_eq_true,
            if_false] at this
          show s.wg = ((List.countP notDone (s.goroutines.set index _) : Nat) : Int)
          simp only [notDone] at hc ⊢
          omega
        · intro g hg hpc
          show _ ∈ out.1.calls
          rw [hextra]
          apply List.mem_append_left
          rcases List.mem_or_eq_of_mem_set hg with hold | hnew
          · exact hinv.subscribed g hold hpc
          · subst hnew
            show RedisCall.Subscribe (convertToRedisTopicScheme out.2.2.topic.Topic) ∈ _
            rw [htopic]
            exact hinv.subscribed (GoroutinePc.receiving, loop) hmem (by simp)
        · show List.map (fun g => g.2.topic) (s.goroutines.set index _) ++ s.caller.remaining
            = topics
          rw [map_set_of_same (fun g : GoroutinePc × ReceiveLoop => g.2.topic) _ index _
            (GoroutinePc.receiving, out.2.2) hget htopic]
          exact hinv.started
        · intro hret g hg
          rcases List.mem_or_eq_of_mem_set hg with hold | hnew
          · exact hinv.released hret g hold
          · subst hnew
            rfl
      · cases h

theorem SubscribeRun.run_cons (s : SubscribeRun) (turn : Turn) (rest : List Turn) :
    s.run (turn :: rest) =
      match s.step turn with
      | some next => next.run rest
      | none => s.run rest := rfl

theorem SubscribeRun.Inv_run (topics : List TopicChannel) (schedule : List Turn) :
    ∀ s : SubscribeRun, SubscribeRun.Inv topics s → SubscribeRun.Inv topics (s.run schedule) := by
  induction schedule with
  | nil => intro s h; exact h
  | cons turn rest ih =>
    intro s h
    unfold SubscribeRun.run
    cases hstep : s.step turn with
    | none => exact ih s h
    | some next => exact ih next (SubscribeRun.Inv_step topics s next turn h hstep)

theorem SubscribeRun.run_calls (schedule : List Turn) :
    ∀ s : SubscribeRun,
      ∃ extra, (s.run schedule).redisClient.calls = s.redisClient.calls ++ extra := by
  induction schedule with
  | nil => intro s; exact ⟨[], (List.append_nil _).symm⟩
  | cons turn rest ih =>
    intro s
    unfold SubscribeRun.run
    cases hstep : s.step turn with
    | none => exact ih s
    | some next =>
      obtain ⟨e1, h1⟩ := SubscribeRun.step_calls s next turn hstep
      obtain ⟨e2, h2⟩ := ih next
      exact ⟨e1 ++ e2, by simp only [h2, h1, List.append_assoc]⟩

theorem SubscribeRun.run_append (first : List Turn) (later : List Turn) :
    ∀ s : SubscribeRun, s.run (first ++ later) = (s.run first).run later := by
  induction first with
  | nil => intro s; rfl
  | cons turn rest ih =>
    intro s
    rw [List.cons_append, SubscribeRun.run_cons, SubscribeRun.run_cons]
    cases s.step turn with
    | none => exact ih s
    | some next => exact ih next

theorem SubscribeRun.Inv_start (c : Client) (topics : List TopicChannel) (s : SubscribeRun)
    (h : SubscribeRun.start c topics = .ok s) : SubscribeRun.Inv topics s := by
  unfold SubscribeRun.start at h
  split at h
  · cases h
  · split at h
    · cases h
    · cases h
      exact ⟨rfl, fun g hg => absurd hg (List.not_mem_nil g), rfl, fun hret => by cases hret⟩

/-- C15: in every interleaving of the caller of `Subscribe` (on a configured client, with
topics that pass `validateTopics`) and the goroutines it starts, when the caller has
returned there is one goroutine per requested topic, every goroutine is in its receive
loop, and the backend log holds the `Subscribe` call for the translation of every
requested topic; the log only grows afterwards, so a call made after the return (such as
the `Send` of a publish) comes after these `Subscribe` calls.  While some goroutine has not
reached its loop, the caller blocked in `wg.Wait()` cannot take a step. -/
theorem Subscribe_returns_after_backend_subscriptions (c : Client)
    (topics : List TopicChannel) (s : SubscribeRun) (schedule : List Turn)
    (hstart : SubscribeRun.start c topics = .ok s)
    (hreturned : (s.run schedule).caller = SubscribePc.returned) :
    (s.run schedule).goroutines.map (fun g => g.2.topic) = topics ∧
    (∀ g ∈ (s.run schedule).goroutines, g.1 = GoroutinePc.receiving) ∧
    (∀ topic ∈ topics, RedisCall.Subscribe (convertToRedisTopicScheme topic.Topic) ∈
      (s.run schedule).redisClient.calls) ∧
    (∀ later : List Turn, ∃ extra, (s.run (schedule ++ later)).redisClient.calls =
      (s.run schedule).redisClient.calls ++ extra) ∧
    (∀ earlier : List Turn, (s.run earlier).caller = SubscribePc.waiting →
      (∃ g ∈ (s.run earlier).goroutines, g.1 ≠ GoroutinePc.receiving) →
      (s.run earlier).step Turn.caller = none) := by
  have hinv := SubscribeRun.Inv_run topics schedule s (SubscribeRun.Inv_start c topics s hstart)
  have hstarted : (s.run schedule).goroutines.map (fun g => g.2.topic) = topics := by
    have := hinv.started
    rw [hreturned] at this
    simpa [SubscribePc.remaining] using this
  refine ⟨hstarted, hinv.released hreturned, ?_, ?_, ?_⟩
  · intro topic htopic
    rw [← hstarted, List.mem_map] at htopic
    obtain ⟨g, hg, hgt⟩ := htopic
    have hpc := hinv.released hreturned g hg
    have := hinv.subscribed g hg (by rw [hpc]; simp)
    rwa [hgt] at this
  · intro later
    rw [SubscribeRun.run_append]
    exact SubscribeRun.run_calls later _
  · intro earlier hwaiting hpending
    have hinv' := SubscribeRun.Inv_run topics earlier s
      (SubscribeRun.Inv_start c topics s hstart)
    obtain ⟨g, hg, hpc⟩ := hpending
    have hpos : 0 < (s.run earlier).goroutines.countP notDone :=
      List.countP_pos_iff.mpr ⟨g, hg, by simpa [notDone] using hpc⟩
    have hwg : (s.run earlier).wg ≠ 0 := by
      have := hinv'.counter
      omega
    simp [SubscribeRun.step, hwaiting, hwg]

/-- Witness for C15: two topics; the first goroutine subscribes, is done and receives once
before the second is started; the caller passes `wg.Wait()` after the second is done. -/
theorem Subscribe_returns_after_backend_subscriptions_witness :
    RedisCall.Subscribe (convertToRedisTopicScheme "a/#") ∈
      (SubscribeRun.run
        { caller := .spawning [⟨"a/#", 0⟩, ⟨"b", 1⟩], wg := 0,
          redisClient := ⟨[], fun _ => none⟩,
          existingTopics := (TopicMap.empty.store "a/#" true).store "b" true,
          goroutines := [] }
        [.caller, .goroutine 0 (.ok {}), .goroutine 0 (.ok {}), .goroutine 0 (.ok {}),
          .caller, .caller, .caller, .goroutine 1 (.ok {}), .caller, .goroutine 1 (.ok {}),
          .caller]).redisClient.calls ∧
    RedisCall.Subscribe (convertToRedisTopicScheme "b") ∈
      (SubscribeRun.run
        { caller := .spawning [⟨"a/#", 0⟩, ⟨"b", 1⟩], wg := 0,
          redisClient := ⟨[], fun _ => none⟩,
          existingTopics := (TopicMap.empty.store "a/#" true).store "b" true,
          goroutines := [] }
        [.caller, .goroutine 0 (.ok {}), .goroutine 0 (.ok {}), .goroutine 0 (.ok {}),
          .caller, .caller, .caller, .goroutine 1 (.ok {}), .caller, .goroutine 1 (.ok {}),
          .caller]).redisClient.calls :=
  have h := (Subscribe_returns_after_backend_subscriptions
    ⟨some ⟨[], fun _ => none⟩, TopicMap.empty⟩ [⟨"a/#", 0⟩, ⟨"b", 1⟩]
    { caller := .spawning [⟨"a/#", 0⟩, ⟨"b", 1⟩], wg := 0,
      redisClient := ⟨[], fun _ => none⟩,
      existingTopics := (TopicMap.empty.store "a/#" true).store "b" true,
      goroutines := [] }
    [.caller, .goroutine 0 (.ok {}), .goroutine 0 (.ok {}), .goroutine 0 (.ok {}),
      .caller, .caller, .caller, .goroutine 1 (.ok {}), .caller, .goroutine 1 (.ok {}),
      .caller]
    rfl (by decide)).2.2.1
  ⟨h ⟨"a/#", 0⟩ (by decide), h ⟨"b", 1⟩ (by decide)⟩

end Messaging
